import Mathlib

/-
  Shallow embedding of the buffer manager in src/buf.C.

  The buffer manager state is the frame descriptor table (`bufTable`), the
  clock hand and the page-index hash table.  The external File abstraction is
  modelled by an environment of result oracles (`FileEnv`); physical I/O is
  recorded as a trace of `IOEvent`s.  File handles are modelled as `Nat`
  (0 playing the role of the NULL pointer) and page numbers as `Int`
  (the code uses -1 as a sentinel).
-/

namespace BufSpec

/-- The Status codes of the original code base that buf.C mentions. -/
inductive Status where
  | OK
  | UNIXERR
  | BUFFEREXCEEDED
  | HASHTBLERROR
  | HASHNOTFOUND
  | PAGENOTPINNED
  | PAGEPINNED
  | BADBUFFER
deriving DecidableEq

/-- Modelled from the spec: the per-frame descriptor `BufDesc` of the missing
buf.h, fields per spec section 3 (frame_id, owning_file, page_number, valid,
dirty, ref_bit, pin_count) and per the field names used throughout buf.C. -/
structure BufDesc where
  frameNo : Nat
  fileId  : Nat
  pageNo  : Int
  valid   : Bool
  dirty   : Bool
  refbit  : Bool
  pinCnt  : Nat
deriving DecidableEq

/-- Default descriptor (all-zero, as produced by memset 0 in the constructor). -/
def d0 : BufDesc := ⟨0, 0, 0, false, false, false, 0⟩

/-- Modelled from the spec: the Page Index (`BufHashTbl` of the missing buf.h)
as an association list from (file, page_number) to frame number,
spec section 6: insert / lookup / remove, lookup failing with not-found. -/
abbrev HashTbl := List ((Nat × Int) × Nat)

/-- Modelled from the spec: `BufHashTbl::lookup(file, pageNo, frameNo)`;
returns OK plus the mapped frame when the key is present, HASHNOTFOUND
(and an unspecified frame number, here 0) when absent. -/
def hashLookup : HashTbl → Nat → Int → Status × Nat
  | [], _, _ => (Status.HASHNOTFOUND, 0)
  | e :: rest, f, p =>
    if e.1 = (f, p) then (Status.OK, e.2) else hashLookup rest f p

/-- Modelled from the spec: `BufHashTbl::remove(file, pageNo)`; removes the
entry for the key when present (OK), fails with HASHNOTFOUND otherwise. -/
def hashRemove : HashTbl → Nat → Int → Status × HashTbl
  | [], _, _ => (Status.HASHNOTFOUND, [])
  | e :: rest, f, p =>
    if e.1 = (f, p) then (Status.OK, rest)
    else
      let r := hashRemove rest f p
      (r.1, e :: r.2)

/-- Modelled from the spec: `BufHashTbl::insert(file, pageNo, frameNo)`;
fails with HASHTBLERROR when the key is already present, otherwise adds
the mapping. -/
def hashInsert (h : HashTbl) (f : Nat) (p : Int) (fr : Nat) : Status × HashTbl :=
  if (hashLookup h f p).1 = Status.OK then (Status.HASHTBLERROR, h)
  else (Status.OK, ((f, p), fr) :: h)

/-- Result oracles for the external File abstraction (spec section 6):
the status each physical operation would return, and the page number
produced by allocatePage. -/
structure FileEnv where
  readSt   : Nat → Int → Status
  writeSt  : Nat → Int → Status
  allocRes : Nat → Status × Int
  dispSt   : Nat → Int → Status

/-- Trace of physical I/O calls made into the File abstraction. -/
inductive IOEvent where
  | readPg  (file : Nat) (page : Int)
  | writePg (file : Nat) (page : Int)
  | allocPg (file : Nat)
  | dispPg  (file : Nat) (page : Int)
deriving DecidableEq

/-- The buffer manager state: BufMgr's fields numBufs, bufTable, clockHand
and the hash table (the page pool itself carries no state we track beyond
the I/O trace). -/
structure BufMgr where
  numBufs   : Nat
  bufTable  : List BufDesc
  clockHand : Nat
  hashTbl   : HashTbl
deriving DecidableEq

/-- Descriptor of frame `i` (bufTable[i]). -/
def descAt (st : BufMgr) (i : Nat) : BufDesc := st.bufTable.getD i d0

/-- Modelled from the spec: `BufDesc::Set(file, pageNo)` of the missing buf.h,
spec section 4.3: owning_file and page_number set, valid = true,
dirty = false, ref_bit = true, pin_count = 1. -/
def setDesc (d : BufDesc) (file : Nat) (pageNo : Int) : BufDesc :=
  { d with fileId := file, pageNo := pageNo, valid := true, dirty := false,
           refbit := true, pinCnt := 1 }

/-- Modelled from the spec: `BufDesc::Clear()` of the missing buf.h,
spec section 4.5: the descriptor is reset to invalid; fields return to the
constructor's state (file NULL, page number sentinel -1, counts zero). -/
def clearDesc (d : BufDesc) : BufDesc :=
  { d with fileId := 0, pageNo := -1, valid := false, dirty := false,
           refbit := false, pinCnt := 0 }

/-- BufMgr::BufMgr(bufs): all frames invalid with frameNo = index, all other
fields zeroed (memset), clockHand = bufs - 1, empty hash table. -/
def initBufMgr (bufs : Nat) : BufMgr :=
  { numBufs := bufs
    bufTable := (List.range bufs).map (fun i => ⟨i, 0, 0, false, false, false, 0⟩)
    clockHand := bufs - 1
    hashTbl := [] }

/-- The second-chance step `tmpbuf->refbit = false` (buf.C line 104). -/
def clearRef (d : BufDesc) : BufDesc :=
  { d with refbit := false }

/-- The clock scan loop of BufMgr::allocBuf (buf.C lines 84-105), with
explicit fuel.  Returns the updated table, the final clock hand and whether
the loop exited through a `break` (a frame was selected at the hand) or
through the loop condition `numPins < numBufs` failing. -/
def clockScan (numBufs : Nat) : Nat → List BufDesc → Nat → Nat →
    Option (List BufDesc × Nat × Bool)
  | 0, _, _, _ => none
  | fuel + 1, tbl, hand, numPins =>
    if numPins < numBufs then
      let hand1 := (hand + 1) % numBufs
      let d := tbl.getD hand1 d0
      if d.valid = false then some (tbl, hand1, true)
      else if d.refbit = false then
        if d.pinCnt = 0 then some (tbl, hand1, true)
        else clockScan numBufs fuel tbl hand1 (numPins + 1)
      else clockScan numBufs fuel (tbl.set hand1 (clearRef d)) hand1 numPins
    else some (tbl, hand, false)

/-- The post-scan phase of BufMgr::allocBuf (buf.C lines 112-129): once the
scan has selected the frame at `hand`, a valid victim has its hash entry
removed first, then, if dirty, is written back to its file; only then is the
victim's frame number handed out.  A failure of either step returns the
error with no frame. -/
def evictStep (env : FileEnv) (st : BufMgr) (tbl : List BufDesc) (hand : Nat) :
    Status × BufMgr × List IOEvent × Option Nat :=
  let st1 : BufMgr := { st with bufTable := tbl, clockHand := hand }
  let d := tbl.getD hand d0
  if d.valid then
    let r := hashRemove st.hashTbl d.fileId d.pageNo
    if r.1 ≠ Status.OK then (r.1, st1, [], none)
    else
      let st2 : BufMgr := { st1 with hashTbl := r.2 }
      if d.dirty then
        if env.writeSt d.fileId d.pageNo ≠ Status.OK then
          (Status.UNIXERR, st2, [IOEvent.writePg d.fileId d.pageNo], none)
        else
          (Status.OK, st2, [IOEvent.writePg d.fileId d.pageNo], some d.frameNo)
      else (Status.OK, st2, [], some d.frameNo)
  else (Status.OK, st1, [], some d.frameNo)

/-- BufMgr::allocBuf (buf.C lines 78-130).  `none` means the scan ran out of
fuel (shown impossible below).  On BUFFEREXCEEDED the refbit clears made by
the scan persist, as in the code; otherwise the eviction phase runs on the
selected frame. -/
def allocBuf (env : FileEnv) (st : BufMgr) :
    Option (Status × BufMgr × List IOEvent × Option Nat) :=
  match clockScan st.numBufs (2 * st.numBufs + 1) st.bufTable st.clockHand 0 with
  | none => none
  | some (tbl, hand, found) =>
    if found = false then
      some (Status.BUFFEREXCEEDED, { st with bufTable := tbl, clockHand := hand }, [], none)
    else some (evictStep env st tbl hand)

/-- BufMgr::readPage (buf.C lines 156-199).  The guard at line 162,
`if (rc != OK || rc != HASHNOTFOUND) return rc;`, is translated verbatim;
being a tautology it makes the hit and miss branches below it dead code,
exactly as in the source. -/
def readPage (env : FileEnv) (st : BufMgr) (file : Nat) (pageNo : Int) :
    Option (Status × BufMgr × List IOEvent × Option Nat) :=
  let l := hashLookup st.hashTbl file pageNo
  if l.1 ≠ Status.OK ∨ l.1 ≠ Status.HASHNOTFOUND then some (l.1, st, [], none)
  else if l.1 = Status.HASHNOTFOUND then
    match allocBuf env st with
    | none => none
    | some (rc2, st1, ios1, fr) =>
      if rc2 ≠ Status.OK then some (rc2, st1, ios1, none)
      else
        let repframe := fr.getD 0
        if env.readSt file pageNo ≠ Status.OK then
          some (Status.UNIXERR, st1, ios1 ++ [IOEvent.readPg file pageNo], none)
        else
          let ins := hashInsert st1.hashTbl file pageNo repframe
          if ins.1 ≠ Status.OK then
            some (Status.HASHTBLERROR, st1, ios1 ++ [IOEvent.readPg file pageNo], none)
          else
            let tbl2 := st1.bufTable.set repframe
              (setDesc (st1.bufTable.getD repframe d0) file pageNo)
            let st2 : BufMgr := { st1 with hashTbl := ins.2, bufTable := tbl2 }
            some (Status.OK, st2, ios1 ++ [IOEvent.readPg file pageNo], some repframe)
  else
    let frameno := l.2
    let d := st.bufTable.getD frameno d0
    let d1 := { d with refbit := true, pinCnt := d.pinCnt + 1 }
    some (Status.OK, { st with bufTable := st.bufTable.set frameno d1 }, [], some frameno)

/-- BufMgr::unPinPage (buf.C lines 214-233). -/
def unPinPage (st : BufMgr) (file : Nat) (pageNo : Int) (dirty : Bool) :
    Status × BufMgr × List IOEvent :=
  let l := hashLookup st.hashTbl file pageNo
  if l.1 ≠ Status.OK then (Status.HASHNOTFOUND, st, [])
  else
    let frameno := l.2
    let d := st.bufTable.getD frameno d0
    if d.pinCnt = 0 then (Status.PAGENOTPINNED, st, [])
    else
      let d1 := { d with pinCnt := d.pinCnt - 1 }
      let d2 := if dirty then { d1 with dirty := dirty } else d1
      (Status.OK, { st with bufTable := st.bufTable.set frameno d2 }, [])

/-- BufMgr::allocPage (buf.C lines 247-268).  Note that at line 252 the
status returned by `file->allocatePage(pageNo)` is discarded by the code;
only the produced page number is used.  This is translated verbatim. -/
def allocPage (env : FileEnv) (st : BufMgr) (file : Nat) :
    Option (Status × BufMgr × List IOEvent × Option Int × Option Nat) :=
  let pageNo := (env.allocRes file).2
  match allocBuf env st with
  | none => none
  | some (rc, st1, ios, fr) =>
    if rc ≠ Status.OK then
      some (rc, st1, IOEvent.allocPg file :: ios, some pageNo, none)
    else
      let repframe := fr.getD 0
      let ins := hashInsert st1.hashTbl file pageNo repframe
      if ins.1 ≠ Status.OK then
        some (Status.HASHTBLERROR, st1, IOEvent.allocPg file :: ios, some pageNo, none)
      else
        let tbl2 := st1.bufTable.set repframe
          (setDesc (st1.bufTable.getD repframe d0) file pageNo)
        let st2 : BufMgr := { st1 with hashTbl := ins.2, bufTable := tbl2 }
        some (Status.OK, st2, IOEvent.allocPg file :: ios, some pageNo, some repframe)

/-- BufMgr::disposePage (buf.C lines 270-283).  The status of the hash-table
remove is overwritten, and the status of the lookup decides only whether the
frame is cleared; the call returns the File abstraction's disposePage
status. -/
def disposePage (env : FileEnv) (st : BufMgr) (file : Nat) (pageNo : Int) :
    Status × BufMgr × List IOEvent :=
  let l := hashLookup st.hashTbl file pageNo
  let st1 : BufMgr :=
    if l.1 = Status.OK then
      { st with bufTable := st.bufTable.set l.2 (clearDesc (st.bufTable.getD l.2 d0)) }
    else st
  let st2 : BufMgr := { st1 with hashTbl := (hashRemove st1.hashTbl file pageNo).2 }
  (env.dispSt file pageNo, st2, [IOEvent.dispPg file pageNo])

/-- The frame loop of BufMgr::flushFile (buf.C lines 288-315), one fuel unit
per frame index starting at `i`. -/
def flushLoop (env : FileEnv) (file : Nat) : Nat → Nat → List BufDesc → HashTbl →
    Status × List BufDesc × HashTbl × List IOEvent
  | 0, _, tbl, h => (Status.OK, tbl, h, [])
  | fuel + 1, i, tbl, h =>
    let d := tbl.getD i d0
    if d.valid = true ∧ d.fileId = file then
      if 0 < d.pinCnt then (Status.PAGEPINNED, tbl, h, [])
      else if d.dirty ∧ env.writeSt file d.pageNo ≠ Status.OK then
        (env.writeSt file d.pageNo, tbl, h, [IOEvent.writePg file d.pageNo])
      else
        let d2 := { d with dirty := false, fileId := 0, pageNo := -1, valid := false }
        let res := flushLoop env file fuel (i + 1) (tbl.set i d2) ((hashRemove h file d.pageNo).2)
        (res.1, res.2.1, res.2.2.1,
          (if d.dirty then [IOEvent.writePg file d.pageNo] else []) ++ res.2.2.2)
    else if d.valid = false ∧ d.fileId = file then
      (Status.BADBUFFER, tbl, h, [])
    else
      flushLoop env file fuel (i + 1) tbl h

/-- BufMgr::flushFile (buf.C lines 285-318). -/
def flushFile (env : FileEnv) (st : BufMgr) (file : Nat) :
    Status × BufMgr × List IOEvent :=
  let r := flushLoop env file st.numBufs 0 st.bufTable st.hashTbl
  (r.1, { st with bufTable := r.2.1, hashTbl := r.2.2.1 }, r.2.2.2)


instance : DecidableEq (List IOEvent × Option Int × Option Nat) :=
  inferInstance

instance : DecidableEq (BufMgr × List IOEvent × Option Int × Option Nat) :=
  inferInstance

instance : DecidableEq (Status × BufMgr × List IOEvent × Option Int × Option Nat) :=
  inferInstance

/-- A File environment in which every physical operation succeeds and
allocatePage hands out page number 7. -/
def exEnv : FileEnv :=
  { readSt := fun _ _ => Status.OK
    writeSt := fun _ _ => Status.OK
    allocRes := fun _ => (Status.OK, 7)
    dispSt := fun _ _ => Status.OK }

/-- One-frame pool caching page (file 1, page 5) with pin count 1. -/
def stHit : BufMgr :=
  { numBufs := 1
    bufTable := [⟨0, 1, 5, true, false, true, 1⟩]
    clockHand := 0
    hashTbl := [((1, 5), 0)] }

/-- Two-frame pool: frame 0 holds (1,1), ref_bit clear, pinned once;
frame 1 holds (1,2), ref_bit set, unpinned.  Clock hand at 1. -/
def stScan : BufMgr :=
  { numBufs := 2
    bufTable := [⟨0, 1, 1, true, false, false, 1⟩, ⟨1, 1, 2, true, false, true, 0⟩]
    clockHand := 1
    hashTbl := [((1, 1), 0), ((1, 2), 1)] }

/-- The state stScan after the clock scan gives up: frame 1's ref_bit has
been cleared and the hand rests on frame 0. -/
def stScanOut : BufMgr :=
  { numBufs := 2
    bufTable := [⟨0, 1, 1, true, false, false, 1⟩, ⟨1, 1, 2, true, false, false, 0⟩]
    clockHand := 0
    hashTbl := [((1, 1), 0), ((1, 2), 1)] }

/-- One-frame pool caching (1,1), unpinned, ref_bit clear: an eviction
candidate. -/
def stVict : BufMgr :=
  { numBufs := 1
    bufTable := [⟨0, 1, 1, true, false, false, 0⟩]
    clockHand := 0
    hashTbl := [((1, 1), 0)] }

/-- The state stVict after allocBuf evicts frame 0: the hash entry is gone
but the descriptor still says valid. -/
def stVictOut : BufMgr :=
  { numBufs := 1
    bufTable := [⟨0, 1, 1, true, false, false, 0⟩]
    clockHand := 0
    hashTbl := [] }

/-- Two-frame pool, both frames of file 1: frame 0 dirty and unpinned,
frame 1 pinned. -/
def stFlush : BufMgr :=
  { numBufs := 2
    bufTable := [⟨0, 1, 1, true, true, false, 0⟩, ⟨1, 1, 2, true, false, false, 1⟩]
    clockHand := 1
    hashTbl := [((1, 1), 0), ((1, 2), 1)] }

/-- File environment whose allocatePage reports UNIXERR (but still yields a
page number slot, as the out-parameter in the code). -/
def envAllocFail : FileEnv :=
  { exEnv with allocRes := fun _ => (Status.UNIXERR, 7) }

/-- The keys of the page index. -/
def keysOf (h : HashTbl) : List (Nat × Int) := h.map (fun e => e.1)

/-- Number of frames with the reference bit set. -/
def countRef (l : List BufDesc) : Nat := l.countP (fun d => d.refbit)

/-- Frame j is an immediate candidate for the clock scan: invalid, or
unreferenced and unpinned. -/
def eligible (tbl : List BufDesc) (j : Nat) : Prop :=
  (tbl.getD j d0).valid = false ∨
    ((tbl.getD j d0).refbit = false ∧ (tbl.getD j d0).pinCnt = 0)

/-- The scan changes descriptors only by clearing reference bits. -/
def refbitOnly (t t2 : List BufDesc) : Prop :=
  t2.length = t.length ∧
  ∀ i, (t2.getD i d0).frameNo = (t.getD i d0).frameNo ∧
       (t2.getD i d0).fileId = (t.getD i d0).fileId ∧
       (t2.getD i d0).pageNo = (t.getD i d0).pageNo ∧
       (t2.getD i d0).valid = (t.getD i d0).valid ∧
       (t2.getD i d0).dirty = (t.getD i d0).dirty ∧
       (t2.getD i d0).pinCnt = (t.getD i d0).pinCnt ∧
       ((t2.getD i d0).refbit = true → (t.getD i d0).refbit = true)

/-- The successful-unpin descriptor update: pin count decremented, dirty bit
ored in (buf.C lines 227-230). -/
def unpinDesc (d : BufDesc) (dirty : Bool) : BufDesc :=
  { d with pinCnt := d.pinCnt - 1, dirty := d.dirty || dirty }

/-- One-frame pool caching the dirty, unpinned page (1,1). -/
def stDirty : BufMgr :=
  { numBufs := 1
    bufTable := [⟨0, 1, 1, true, true, false, 0⟩]
    clockHand := 0
    hashTbl := [((1, 1), 0)] }

/-- The bijection invariant on a table of n descriptors and a page index:
every index entry points to a valid frame below n carrying exactly that
(file, page) identity; every valid frame below n has its entry in the
index; and the index keys are free of duplicates.  Under key nodupness the
entries are pairwise distinct in both keys and frames, so the valid frames
and the index entries are in bijection. -/
def InvT (n : Nat) (tbl : List BufDesc) (h : HashTbl) : Prop :=
  (∀ e ∈ h, e.2 < n ∧ (tbl.getD e.2 d0).valid = true ∧
    (tbl.getD e.2 d0).fileId = e.1.1 ∧ (tbl.getD e.2 d0).pageNo = e.1.2) ∧
  (∀ i, i < n → (tbl.getD i d0).valid = true →
    (((tbl.getD i d0).fileId, (tbl.getD i d0).pageNo), i) ∈ h) ∧
  (keysOf h).Nodup

/-- The bijection invariant of a buffer manager state. -/
def Inv (st : BufMgr) : Prop := InvT st.numBufs st.bufTable st.hashTbl

instance : ∀ (n : Nat) (tbl : List BufDesc) (h : HashTbl), Decidable (InvT n tbl h) :=
  fun n tbl h => by
    unfold InvT keysOf
    infer_instance

instance : ∀ st : BufMgr, Decidable (Inv st) := fun st => by
  unfold Inv
  infer_instance

/-- Structural well-formedness of a state: numBufs descriptors whose
frameNo equals their index (as the constructor establishes). -/
def Wf (st : BufMgr) : Prop :=
  st.bufTable.length = st.numBufs ∧
  ∀ i, i < st.numBufs → (descAt st i).frameNo = i

instance : ∀ st : BufMgr, Decidable (Wf st) := fun st => by
  unfold Wf descAt
  infer_instance

/-! ### Theorems -/


theorem getD_set {α : Type} (l : List α) (i j : Nat) (a d : α) :
    (l.set i a).getD j d = if i = j ∧ i < l.length then a else l.getD j d := by
  induction l generalizing i j with
  | nil => simp [List.getD]
  | cons hd tl ih =>
    cases i with
    | zero =>
      cases j with
      | zero => simp
      | succ j => simp [List.getD]
    | succ i =>
      cases j with
      | zero => simp [List.getD]
      | succ j =>
        simp only [List.set_cons_succ, List.getD_cons_succ, ih, List.length_cons]
        by_cases hij : i = j
        · subst hij
          by_cases hlt : i < tl.length
          · rw [if_pos ⟨rfl, hlt⟩, if_pos ⟨rfl, by omega⟩]
          · rw [if_neg (by tauto), if_neg (by omega)]
        · rw [if_neg (by tauto), if_neg (by omega)]

theorem getD_set_self {α : Type} (l : List α) (i : Nat) (a d : α) (h : i < l.length) :
    (l.set i a).getD i d = a := by
  rw [getD_set, if_pos ⟨rfl, h⟩]

theorem getD_set_ne {α : Type} (l : List α) (i j : Nat) (a d : α) (h : i ≠ j) :
    (l.set i a).getD j d = l.getD j d := by
  rw [getD_set, if_neg (by tauto)]

theorem getD_ge {α : Type} (l : List α) (i : Nat) (d : α) (h : l.length ≤ i) :
    l.getD i d = d := by
  rw [List.getD_eq_getElem?_getD, List.getElem?_eq_none (by omega)]
  rfl

theorem hashLookup_status (h : HashTbl) (f : Nat) (p : Int) :
    (hashLookup h f p).1 = Status.OK ∨ (hashLookup h f p).1 = Status.HASHNOTFOUND := by
  induction h with
  | nil => simp [hashLookup]
  | cons e rest ih =>
    by_cases he : e.1 = (f, p)
    · simp [hashLookup, he]
    · simpa [hashLookup, he] using ih

theorem hashLookup_ok_mem (h : HashTbl) (f : Nat) (p : Int)
    (hl : (hashLookup h f p).1 = Status.OK) :
    ((f, p), (hashLookup h f p).2) ∈ h := by
  induction h with
  | nil => simp [hashLookup] at hl
  | cons e rest ih =>
    by_cases he : e.1 = (f, p)
    · simp only [hashLookup, if_pos he]
      have he2 : ((f, p), e.2) = e := by rw [← he]
      rw [he2]
      exact List.mem_cons_self e rest
    · simp only [hashLookup, if_neg he] at hl ⊢
      right
      exact ih hl

theorem hashLookup_nf_iff (h : HashTbl) (f : Nat) (p : Int) :
    (hashLookup h f p).1 = Status.HASHNOTFOUND ↔ (f, p) ∉ keysOf h := by
  induction h with
  | nil => simp [hashLookup, keysOf]
  | cons e rest ih =>
    by_cases he : e.1 = (f, p)
    · simp [hashLookup, he, keysOf]
    · simp only [hashLookup, if_neg he, keysOf, List.map_cons, List.mem_cons] at ih ⊢
      rw [ih]
      constructor
      · intro hk hc
        rcases hc with hc | hc
        · exact he hc.symm
        · exact hk hc
      · intro hk hc
        exact hk (Or.inr hc)

theorem hashRemove_status (h : HashTbl) (f : Nat) (p : Int) :
    (hashRemove h f p).1 = Status.OK ∨ (hashRemove h f p).1 = Status.HASHNOTFOUND := by
  induction h with
  | nil => simp [hashRemove]
  | cons e rest ih =>
    by_cases he : e.1 = (f, p)
    · simp [hashRemove, he]
    · simpa [hashRemove, he] using ih

theorem hashRemove_sublist (h : HashTbl) (f : Nat) (p : Int) :
    (hashRemove h f p).2.Sublist h := by
  induction h with
  | nil => simp [hashRemove]
  | cons e rest ih =>
    by_cases he : e.1 = (f, p)
    · simp only [hashRemove, if_pos he]
      exact List.sublist_cons_self e rest
    · simp only [hashRemove, if_neg he]
      exact ih.cons₂ e

theorem mem_hashRemove (h : HashTbl) (f : Nat) (p : Int) (e : (Nat × Int) × Nat)
    (hm : e ∈ h) (hne : e.1 ≠ (f, p)) : e ∈ (hashRemove h f p).2 := by
  induction h with
  | nil => simp at hm
  | cons e1 rest ih =>
    by_cases he : e1.1 = (f, p)
    · simp only [hashRemove, if_pos he]
      rcases List.mem_cons.mp hm with rfl | hm1
      · exact absurd he hne
      · exact hm1
    · simp only [hashRemove, if_neg he]
      rcases List.mem_cons.mp hm with rfl | hm1
      · exact List.mem_cons_self _ _
      · exact List.mem_cons_of_mem _ (ih hm1)

theorem hashRemove_subset (h : HashTbl) (f : Nat) (p : Int) (e : (Nat × Int) × Nat)
    (hm : e ∈ (hashRemove h f p).2) : e ∈ h :=
  (hashRemove_sublist h f p).mem hm

theorem hashRemove_of_nf (h : HashTbl) (f : Nat) (p : Int)
    (hl : (hashLookup h f p).1 = Status.HASHNOTFOUND) :
    (hashRemove h f p).2 = h := by
  induction h with
  | nil => simp [hashRemove]
  | cons e rest ih =>
    by_cases he : e.1 = (f, p)
    · simp [hashLookup, he] at hl
    · simp only [hashLookup, if_neg he] at hl
      simp only [hashRemove, if_neg he, ih hl]

theorem keys_hashRemove_nodup (h : HashTbl) (f : Nat) (p : Int)
    (hn : (keysOf h).Nodup) : (keysOf (hashRemove h f p).2).Nodup := by
  unfold keysOf at hn ⊢
  exact List.Nodup.sublist ((hashRemove_sublist h f p).map (fun e => e.1)) hn

theorem not_mem_keys_hashRemove (h : HashTbl) (f : Nat) (p : Int)
    (hn : (keysOf h).Nodup) : (f, p) ∉ keysOf (hashRemove h f p).2 := by
  induction h with
  | nil => simp [hashRemove, keysOf]
  | cons e rest ih =>
    simp only [keysOf, List.map_cons, List.nodup_cons] at hn
    by_cases he : e.1 = (f, p)
    · simp only [hashRemove, if_pos he]
      rw [← he]
      exact fun hc => hn.1 hc
    · simp only [hashRemove, if_neg he, keysOf, List.map_cons, List.mem_cons]
      intro hc
      rcases hc with hc | hc
      · exact he hc.symm
      · exact ih hn.2 hc

theorem nodupKeys_inj (h : HashTbl) (hn : (keysOf h).Nodup)
    (e1 e2 : (Nat × Int) × Nat) (h1 : e1 ∈ h) (h2 : e2 ∈ h) (hk : e1.1 = e2.1) :
    e1 = e2 := by
  induction h with
  | nil => simp at h1
  | cons e rest ih =>
    simp only [keysOf, List.map_cons, List.nodup_cons] at hn
    rcases List.mem_cons.mp h1 with rfl | h1m
    · rcases List.mem_cons.mp h2 with rfl | h2m
      · rfl
      · exact absurd (hk ▸ List.mem_map_of_mem (fun x => x.1) h2m) hn.1
    · rcases List.mem_cons.mp h2 with rfl | h2m
      · exact absurd (hk ▸ List.mem_map_of_mem (fun x => x.1) h1m) hn.1
      · exact ih hn.2 h1m h2m

theorem countRef_le (l : List BufDesc) : countRef l ≤ l.length :=
  List.countP_le_length _

theorem countRef_set_clear (l : List BufDesc) (i : Nat) (a : BufDesc)
    (hi : i < l.length) (hr : (l.getD i d0).refbit = true) (ha : a.refbit = false) :
    countRef (l.set i a) + 1 = countRef l := by
  induction l generalizing i with
  | nil => simp at hi
  | cons hd tl ih =>
    cases i with
    | zero =>
      simp only [List.getD_cons_zero] at hr
      simp only [List.set_cons_zero, countRef, List.countP_cons, hr, ha]
      simp
    | succ i =>
      simp only [List.getD_cons_succ] at hr
      simp only [List.length_cons, Nat.succ_lt_succ_iff] at hi
      simp only [List.set_cons_succ, countRef, List.countP_cons]
      have := ih i hi hr
      simp only [countRef] at this
      omega

theorem refbitOnly_refl (t : List BufDesc) : refbitOnly t t :=
  ⟨rfl, fun _ => ⟨rfl, rfl, rfl, rfl, rfl, rfl, fun h => h⟩⟩

theorem refbitOnly_trans (t t2 t3 : List BufDesc)
    (h1 : refbitOnly t t2) (h2 : refbitOnly t2 t3) : refbitOnly t t3 := by
  refine ⟨h2.1.trans h1.1, fun i => ?_⟩
  obtain ⟨a1, a2, a3, a4, a5, a6, a7⟩ := h1.2 i
  obtain ⟨b1, b2, b3, b4, b5, b6, b7⟩ := h2.2 i
  exact ⟨b1.trans a1, b2.trans a2, b3.trans a3, b4.trans a4, b5.trans a5,
    b6.trans a6, fun h => a7 (b7 h)⟩

theorem refbitOnly_set_clear (t : List BufDesc) (i : Nat) :
    refbitOnly t (t.set i (clearRef (t.getD i d0))) := by
  refine ⟨List.length_set t i _, fun j => ?_⟩
  by_cases hij : i = j
  · subst hij
    by_cases hi : i < t.length
    · rw [getD_set_self t i _ d0 hi]
      refine ⟨rfl, rfl, rfl, rfl, rfl, rfl, fun h => by simp [clearRef] at h⟩
    · rw [getD_ge (t.set i _) i d0 (by rw [List.length_set]; omega)]
      rw [getD_ge t i d0 (by omega)]
      exact ⟨rfl, rfl, rfl, rfl, rfl, rfl, fun h => h⟩
  · rw [getD_set_ne t i j _ d0 hij]
    exact ⟨rfl, rfl, rfl, rfl, rfl, rfl, fun h => h⟩

theorem scan_refbitOnly (n : Nat) :
    ∀ (fuel : Nat) (tbl : List BufDesc) (hand p : Nat)
      (tbl2 : List BufDesc) (hand2 : Nat) (fnd : Bool),
      clockScan n fuel tbl hand p = some (tbl2, hand2, fnd) → refbitOnly tbl tbl2 := by
  intro fuel
  induction fuel with
  | zero => intro tbl hand p tbl2 hand2 fnd h; simp [clockScan] at h
  | succ fuel ih =>
    intro tbl hand p tbl2 hand2 fnd h
    simp only [clockScan] at h
    split_ifs at h with h1 h2 h3 h4
    · simp only [Option.some.injEq, Prod.mk.injEq] at h
      obtain ⟨rfl, -, -⟩ := h
      exact refbitOnly_refl tbl
    · simp only [Option.some.injEq, Prod.mk.injEq] at h
      obtain ⟨rfl, -, -⟩ := h
      exact refbitOnly_refl tbl
    · exact ih _ _ _ _ _ _ h
    · exact refbitOnly_trans _ _ _ (refbitOnly_set_clear tbl ((hand + 1) % n))
        (ih _ _ _ _ _ _ h)
    · simp only [Option.some.injEq, Prod.mk.injEq] at h
      obtain ⟨rfl, -, -⟩ := h
      exact refbitOnly_refl tbl

theorem scan_found_spec (n : Nat) :
    ∀ (fuel : Nat) (tbl : List BufDesc) (hand p : Nat)
      (tbl2 : List BufDesc) (hand2 : Nat),
      clockScan n fuel tbl hand p = some (tbl2, hand2, true) →
      hand2 < n ∧ eligible tbl2 hand2 := by
  intro fuel
  induction fuel with
  | zero => intro tbl hand p tbl2 hand2 h; simp [clockScan] at h
  | succ fuel ih =>
    intro tbl hand p tbl2 hand2 h
    simp only [clockScan] at h
    split_ifs at h with h1 h2 h3 h4
    · simp only [Option.some.injEq, Prod.mk.injEq] at h
      obtain ⟨rfl, rfl, -⟩ := h
      exact ⟨Nat.mod_lt _ (by omega), Or.inl h2⟩
    · simp only [Option.some.injEq, Prod.mk.injEq] at h
      obtain ⟨rfl, rfl, -⟩ := h
      exact ⟨Nat.mod_lt _ (by omega), Or.inr ⟨h3, h4⟩⟩
    · exact ih _ _ _ _ _ h
    · exact ih _ _ _ _ _ h
    · simp only [Option.some.injEq, Prod.mk.injEq] at h
      exact absurd h.2.2 (by simp)

theorem scan_total (n : Nat) :
    ∀ (fuel : Nat) (tbl : List BufDesc) (hand p : Nat),
      tbl.length = n → countRef tbl + (n - p) < fuel →
      (clockScan n fuel tbl hand p).isSome := by
  intro fuel
  induction fuel with
  | zero => intro tbl hand p hlen hf; omega
  | succ fuel ih =>
    intro tbl hand p hlen hf
    simp only [clockScan]
    split_ifs with h1 h2 h3 h4
    · simp
    · simp
    · apply ih _ _ _ hlen
      omega
    · have hand1lt : (hand + 1) % n < tbl.length := by
        rw [hlen]; exact Nat.mod_lt _ (by omega)
      have hrb : (tbl.getD ((hand + 1) % n) d0).refbit = true := by
        simpa using h3
      have hcnt := countRef_set_clear tbl ((hand + 1) % n)
        (clearRef (tbl.getD ((hand + 1) % n) d0)) hand1lt hrb (by simp [clearRef])
      apply ih _ _ _ (by rw [List.length_set]; exact hlen)
      omega
    · simp

theorem scan_reaches (n : Nat) :
    ∀ (fuel : Nat) (s : Nat) (tbl : List BufDesc) (hand p j : Nat),
      tbl.length = n → j < n → eligible tbl j →
      1 ≤ s → s ≤ fuel → p + s ≤ n → (hand + s) % n = j →
      ∃ t2 h2, clockScan n fuel tbl hand p = some (t2, h2, true) := by
  intro fuel
  induction fuel with
  | zero => intro s tbl hand p j hlen hj helig hs1 hsf hpn hmod; omega
  | succ fuel ih =>
    intro s tbl hand p j hlen hj helig hs1 hsf hpn hmod
    have hpltn : p < n := by omega
    have hn0 : 0 < n := by omega
    simp only [clockScan, if_pos hpltn]
    by_cases hs : s = 1
    · subst hs
      have hj1 : (hand + 1) % n = j := hmod
      rw [hj1]
      rcases helig with hv | ⟨hr, hp⟩
      · rw [if_pos hv]
        exact ⟨tbl, j, rfl⟩
      · by_cases hv : (tbl.getD j d0).valid = false
        · rw [if_pos hv]
          exact ⟨tbl, j, rfl⟩
        · rw [if_neg hv, if_pos hr, if_pos hp]
          exact ⟨tbl, j, rfl⟩
    · have hs2 : 2 ≤ s := by omega
      have hne : (hand + 1) % n ≠ j := by
        intro heq
        have hmeq : (hand + 1) % n = (hand + s) % n := by rw [heq, hmod]
        have hdvd : n ∣ (hand + s) - (hand + 1) :=
          (Nat.modEq_iff_dvd' (by omega)).mp hmeq
        have hsub : (hand + s) - (hand + 1) = s - 1 := by omega
        rw [hsub] at hdvd
        have := Nat.le_of_dvd (by omega) hdvd
        omega
      have hmod1 : ((hand + 1) % n + (s - 1)) % n = j := by
        rw [Nat.mod_add_mod]
        rw [show hand + 1 + (s - 1) = hand + s from by omega]
        exact hmod
      by_cases hv : (tbl.getD ((hand + 1) % n) d0).valid = false
      · rw [if_pos hv]
        exact ⟨tbl, (hand + 1) % n, rfl⟩
      · rw [if_neg hv]
        by_cases hr : (tbl.getD ((hand + 1) % n) d0).refbit = false
        · rw [if_pos hr]
          by_cases hp : (tbl.getD ((hand + 1) % n) d0).pinCnt = 0
          · rw [if_pos hp]
            exact ⟨tbl, (hand + 1) % n, rfl⟩
          · rw [if_neg hp]
            exact ih (s - 1) tbl ((hand + 1) % n) (p + 1) j hlen hj helig
              (by omega) (by omega) (by omega) hmod1
        · rw [if_neg hr]
          have helig2 : eligible (tbl.set ((hand + 1) % n)
              (clearRef (tbl.getD ((hand + 1) % n) d0))) j := by
            unfold eligible
            rw [getD_set_ne _ _ _ _ _ hne]
            exact helig
          exact ih (s - 1) _ ((hand + 1) % n) p j
            (by rw [List.length_set]; exact hlen) hj helig2
            (by omega) (by omega) (by omega) hmod1


theorem allocBuf_scan_eq (env : FileEnv) (st : BufMgr)
    (tbl : List BufDesc) (hand : Nat) (fnd : Bool)
    (hsc : clockScan st.numBufs (2 * st.numBufs + 1) st.bufTable st.clockHand 0
      = some (tbl, hand, fnd)) :
    allocBuf env st =
      if fnd = false then
        some (Status.BUFFEREXCEEDED, { st with bufTable := tbl, clockHand := hand }, [], none)
      else some (evictStep env st tbl hand) := by
  unfold allocBuf
  rw [hsc]

theorem evictStep_invalid (env : FileEnv) (st : BufMgr)
    (tbl : List BufDesc) (hand : Nat) (hv : (tbl.getD hand d0).valid = false) :
    evictStep env st tbl hand =
      (Status.OK, { st with bufTable := tbl, clockHand := hand }, [],
        some (tbl.getD hand d0).frameNo) := by
  unfold evictStep
  dsimp only
  rw [if_neg (by rw [hv]; exact Bool.false_ne_true)]

theorem evictStep_remove_fail (env : FileEnv) (st : BufMgr)
    (tbl : List BufDesc) (hand : Nat) (hv : (tbl.getD hand d0).valid = true)
    (hr : (hashRemove st.hashTbl (tbl.getD hand d0).fileId (tbl.getD hand d0).pageNo).1
      ≠ Status.OK) :
    evictStep env st tbl hand =
      ((hashRemove st.hashTbl (tbl.getD hand d0).fileId (tbl.getD hand d0).pageNo).1,
        { st with bufTable := tbl, clockHand := hand }, [], none) := by
  unfold evictStep
  dsimp only
  rw [if_pos hv, if_pos hr]

theorem evictStep_write_fail (env : FileEnv) (st : BufMgr)
    (tbl : List BufDesc) (hand : Nat) (hv : (tbl.getD hand d0).valid = true)
    (hr : (hashRemove st.hashTbl (tbl.getD hand d0).fileId (tbl.getD hand d0).pageNo).1
      = Status.OK)
    (hd : (tbl.getD hand d0).dirty = true)
    (hw : env.writeSt (tbl.getD hand d0).fileId (tbl.getD hand d0).pageNo ≠ Status.OK) :
    evictStep env st tbl hand =
      (Status.UNIXERR,
        (⟨st.numBufs, tbl, hand, (hashRemove st.hashTbl (tbl.getD hand d0).fileId
          (tbl.getD hand d0).pageNo).2⟩ : BufMgr),
        [IOEvent.writePg (tbl.getD hand d0).fileId (tbl.getD hand d0).pageNo], none) := by
  unfold evictStep
  dsimp only
  rw [if_pos hv, if_neg (by rw [hr]; exact fun hc => hc rfl), if_pos hd, if_pos hw]

theorem evictStep_ok_dirty (env : FileEnv) (st : BufMgr)
    (tbl : List BufDesc) (hand : Nat) (hv : (tbl.getD hand d0).valid = true)
    (hr : (hashRemove st.hashTbl (tbl.getD hand d0).fileId (tbl.getD hand d0).pageNo).1
      = Status.OK)
    (hd : (tbl.getD hand d0).dirty = true)
    (hw : env.writeSt (tbl.getD hand d0).fileId (tbl.getD hand d0).pageNo = Status.OK) :
    evictStep env st tbl hand =
      (Status.OK,
        (⟨st.numBufs, tbl, hand, (hashRemove st.hashTbl (tbl.getD hand d0).fileId
          (tbl.getD hand d0).pageNo).2⟩ : BufMgr),
        [IOEvent.writePg (tbl.getD hand d0).fileId (tbl.getD hand d0).pageNo],
        some (tbl.getD hand d0).frameNo) := by
  unfold evictStep
  dsimp only
  rw [if_pos hv, if_neg (by rw [hr]; exact fun hc => hc rfl), if_pos hd,
    if_neg (by rw [hw]; exact fun hc => hc rfl)]

theorem evictStep_ok_clean (env : FileEnv) (st : BufMgr)
    (tbl : List BufDesc) (hand : Nat) (hv : (tbl.getD hand d0).valid = true)
    (hr : (hashRemove st.hashTbl (tbl.getD hand d0).fileId (tbl.getD hand d0).pageNo).1
      = Status.OK)
    (hd : (tbl.getD hand d0).dirty = false) :
    evictStep env st tbl hand =
      (Status.OK,
        (⟨st.numBufs, tbl, hand, (hashRemove st.hashTbl (tbl.getD hand d0).fileId
          (tbl.getD hand d0).pageNo).2⟩ : BufMgr),
        [], some (tbl.getD hand d0).frameNo) := by
  unfold evictStep
  dsimp only
  rw [if_pos hv, if_neg (by rw [hr]; exact fun hc => hc rfl),
    if_neg (by rw [hd]; exact Bool.false_ne_true)]

theorem evictStep_status (env : FileEnv) (st : BufMgr)
    (tbl : List BufDesc) (hand : Nat) :
    (evictStep env st tbl hand).1 = Status.OK ∨
    (evictStep env st tbl hand).1 = Status.HASHNOTFOUND ∨
    (evictStep env st tbl hand).1 = Status.UNIXERR := by
  by_cases hv : (tbl.getD hand d0).valid = true
  · by_cases hr : (hashRemove st.hashTbl (tbl.getD hand d0).fileId
        (tbl.getD hand d0).pageNo).1 = Status.OK
    · by_cases hd : (tbl.getD hand d0).dirty = true
      · by_cases hw : env.writeSt (tbl.getD hand d0).fileId
            (tbl.getD hand d0).pageNo = Status.OK
        · rw [evictStep_ok_dirty env st tbl hand hv hr hd hw]
          exact Or.inl rfl
        · rw [evictStep_write_fail env st tbl hand hv hr hd hw]
          exact Or.inr (Or.inr rfl)
      · rw [evictStep_ok_clean env st tbl hand hv hr (by simpa using hd)]
        exact Or.inl rfl
    · rw [evictStep_remove_fail env st tbl hand hv hr]
      rcases hashRemove_status st.hashTbl (tbl.getD hand d0).fileId
        (tbl.getD hand d0).pageNo with ho | ho
      · exact absurd ho hr
      · exact Or.inr (Or.inl ho)
  · rw [evictStep_invalid env st tbl hand (by simpa using hv)]
    exact Or.inl rfl

theorem evictStep_fields (env : FileEnv) (st : BufMgr)
    (tbl : List BufDesc) (hand : Nat) :
    (evictStep env st tbl hand).2.1.numBufs = st.numBufs ∧
    (evictStep env st tbl hand).2.1.bufTable = tbl ∧
    (evictStep env st tbl hand).2.1.clockHand = hand := by
  by_cases hv : (tbl.getD hand d0).valid = true
  · by_cases hr : (hashRemove st.hashTbl (tbl.getD hand d0).fileId
        (tbl.getD hand d0).pageNo).1 = Status.OK
    · by_cases hd : (tbl.getD hand d0).dirty = true
      · by_cases hw : env.writeSt (tbl.getD hand d0).fileId
            (tbl.getD hand d0).pageNo = Status.OK
        · rw [evictStep_ok_dirty env st tbl hand hv hr hd hw]
          exact ⟨rfl, rfl, rfl⟩
        · rw [evictStep_write_fail env st tbl hand hv hr hd hw]
          exact ⟨rfl, rfl, rfl⟩
      · rw [evictStep_ok_clean env st tbl hand hv hr (by simpa using hd)]
        exact ⟨rfl, rfl, rfl⟩
    · rw [evictStep_remove_fail env st tbl hand hv hr]
      exact ⟨rfl, rfl, rfl⟩
  · rw [evictStep_invalid env st tbl hand (by simpa using hv)]
    exact ⟨rfl, rfl, rfl⟩

theorem allocBuf_isSome (env : FileEnv) (st : BufMgr)
    (hlen : st.bufTable.length = st.numBufs) : (allocBuf env st).isSome := by
  have hts := scan_total st.numBufs (2 * st.numBufs + 1) st.bufTable st.clockHand 0 hlen
    (by have := countRef_le st.bufTable; omega)
  match hsc : clockScan st.numBufs (2 * st.numBufs + 1) st.bufTable st.clockHand 0 with
  | none => rw [hsc] at hts; simp at hts
  | some (tbl, hand, fnd) =>
    rw [allocBuf_scan_eq env st tbl hand fnd hsc]
    split_ifs <;> simp

theorem allocBuf_exceeded_scan (env : FileEnv) (st : BufMgr)
    (st1 : BufMgr) (ios : List IOEvent) (fr : Option Nat)
    (h : allocBuf env st = some (Status.BUFFEREXCEEDED, st1, ios, fr)) :
    ∃ tbl2 hand2,
      clockScan st.numBufs (2 * st.numBufs + 1) st.bufTable st.clockHand 0
        = some (tbl2, hand2, false) ∧
      st1 = { st with bufTable := tbl2, clockHand := hand2 } ∧ ios = [] ∧ fr = none := by
  match hsc : clockScan st.numBufs (2 * st.numBufs + 1) st.bufTable st.clockHand 0 with
  | none =>
    unfold allocBuf at h
    rw [hsc] at h
    exact Option.noConfusion h
  | some (tbl, hand, fnd) =>
    rw [allocBuf_scan_eq env st tbl hand fnd hsc] at h
    by_cases hf : fnd = false
    · rw [if_pos hf] at h
      simp only [Option.some.injEq, Prod.mk.injEq] at h
      exact ⟨tbl, hand, by rw [hf], h.2.1.symm, h.2.2.1.symm, h.2.2.2.symm⟩
    · rw [if_neg hf] at h
      have h1 : (evictStep env st tbl hand).1 = Status.BUFFEREXCEEDED := by
        rw [Option.some.inj h]
      rcases evictStep_status env st tbl hand with ho | ho | ho <;>
        (rw [ho] at h1; exact Status.noConfusion h1)

theorem allocBuf_not_exceeded_of_eligible (env : FileEnv) (st : BufMgr)
    (hlen : st.bufTable.length = st.numBufs) (j : Nat)
    (hj : j < st.numBufs) (he : eligible st.bufTable j) :
    ∀ st1 ios fr, allocBuf env st ≠ some (Status.BUFFEREXCEEDED, st1, ios, fr) := by
  have hn0 : 0 < st.numBufs := by omega
  have haless : (st.clockHand + 1) % st.numBufs < st.numBufs := Nat.mod_lt _ hn0
  have htlt : (j + st.numBufs - (st.clockHand + 1) % st.numBufs) % st.numBufs
      < st.numBufs := Nat.mod_lt _ hn0
  have hmod : (st.clockHand +
      ((j + st.numBufs - (st.clockHand + 1) % st.numBufs) % st.numBufs + 1))
      % st.numBufs = j := by
    rw [show st.clockHand +
          ((j + st.numBufs - (st.clockHand + 1) % st.numBufs) % st.numBufs + 1)
        = st.clockHand + 1 +
          (j + st.numBufs - (st.clockHand + 1) % st.numBufs) % st.numBufs
        from by omega,
      ← Nat.mod_add_mod, Nat.add_mod_mod,
      show (st.clockHand + 1) % st.numBufs +
          (j + st.numBufs - (st.clockHand + 1) % st.numBufs) = j + st.numBufs
        from by omega,
      Nat.add_mod_right]
    exact Nat.mod_eq_of_lt hj
  obtain ⟨t2, h2, hsc2⟩ := scan_reaches st.numBufs (2 * st.numBufs + 1)
    ((j + st.numBufs - (st.clockHand + 1) % st.numBufs) % st.numBufs + 1)
    st.bufTable st.clockHand 0 j hlen hj he (by omega) (by omega) (by omega) hmod
  intro st1 ios fr h
  obtain ⟨t3, h3, hsc3, -⟩ := allocBuf_exceeded_scan env st st1 ios fr h
  rw [hsc3] at hsc2
  simp at hsc2

theorem allocBuf_effect (env : FileEnv) (st : BufMgr)
    (rc : Status) (st1 : BufMgr) (ios : List IOEvent) (fr : Option Nat)
    (h : allocBuf env st = some (rc, st1, ios, fr)) :
    refbitOnly st.bufTable st1.bufTable ∧ st1.numBufs = st.numBufs := by
  match hsc : clockScan st.numBufs (2 * st.numBufs + 1) st.bufTable st.clockHand 0 with
  | none =>
    unfold allocBuf at h
    rw [hsc] at h
    exact Option.noConfusion h
  | some (tbl, hand, fnd) =>
    have hro := scan_refbitOnly st.numBufs (2 * st.numBufs + 1) st.bufTable
      st.clockHand 0 tbl hand fnd hsc
    rw [allocBuf_scan_eq env st tbl hand fnd hsc] at h
    by_cases hf : fnd = false
    · rw [if_pos hf] at h
      have hinj := Option.some.inj h
      simp only [Prod.mk.injEq] at hinj
      rw [← hinj.2.1]
      exact ⟨hro, rfl⟩
    · rw [if_neg hf] at h
      have h2 : st1 = (evictStep env st tbl hand).2.1 := by
        rw [Option.some.inj h]
      obtain ⟨e1, e2, -⟩ := evictStep_fields env st tbl hand
      rw [h2, e2, e1]
      exact ⟨hro, rfl⟩

theorem allocBuf_ok_cases (env : FileEnv) (st : BufMgr)
    (st1 : BufMgr) (ios : List IOEvent) (f : Nat)
    (h : allocBuf env st = some (Status.OK, st1, ios, some f)) :
    ∃ tbl2 hand2,
      clockScan st.numBufs (2 * st.numBufs + 1) st.bufTable st.clockHand 0
        = some (tbl2, hand2, true) ∧
      st1.numBufs = st.numBufs ∧ st1.bufTable = tbl2 ∧ st1.clockHand = hand2 ∧
      f = (tbl2.getD hand2 d0).frameNo ∧
      (((tbl2.getD hand2 d0).valid = false ∧ st1.hashTbl = st.hashTbl) ∨
       ((tbl2.getD hand2 d0).valid = true ∧
        st1.hashTbl = (hashRemove st.hashTbl (tbl2.getD hand2 d0).fileId
          (tbl2.getD hand2 d0).pageNo).2 ∧
        (hashRemove st.hashTbl (tbl2.getD hand2 d0).fileId
          (tbl2.getD hand2 d0).pageNo).1 = Status.OK)) := by
  match hsc : clockScan st.numBufs (2 * st.numBufs + 1) st.bufTable st.clockHand 0 with
  | none =>
    unfold allocBuf at h
    rw [hsc] at h
    exact Option.noConfusion h
  | some (tbl, hand, fnd) =>
    rw [allocBuf_scan_eq env st tbl hand fnd hsc] at h
    by_cases hf : fnd = false
    · rw [if_pos hf] at h
      simp only [Option.some.injEq, Prod.mk.injEq] at h
      exact absurd h.1 (by decide)
    · rw [if_neg hf] at h
      have hfT : fnd = true := by simpa using hf
      subst hfT
      refine ⟨tbl, hand, rfl, ?_⟩
      have hinj := Option.some.inj h
      by_cases hv : (tbl.getD hand d0).valid = true
      · by_cases hr : (hashRemove st.hashTbl (tbl.getD hand d0).fileId
            (tbl.getD hand d0).pageNo).1 = Status.OK
        · by_cases hd : (tbl.getD hand d0).dirty = true
          · by_cases hw : env.writeSt (tbl.getD hand d0).fileId
                (tbl.getD hand d0).pageNo = Status.OK
            · rw [evictStep_ok_dirty env st tbl hand hv hr hd hw] at hinj
              simp only [Prod.mk.injEq] at hinj
              obtain ⟨-, h2, -, h4⟩ := hinj
              rw [← h2]
              exact ⟨rfl, rfl, rfl, (Option.some.inj h4).symm, Or.inr ⟨hv, rfl, hr⟩⟩
            · rw [evictStep_write_fail env st tbl hand hv hr hd hw] at hinj
              simp only [Prod.mk.injEq] at hinj
              exact absurd hinj.1 (by decide)
          · rw [evictStep_ok_clean env st tbl hand hv hr (by simpa using hd)] at hinj
            simp only [Prod.mk.injEq] at hinj
            obtain ⟨-, h2, -, h4⟩ := hinj
            rw [← h2]
            exact ⟨rfl, rfl, rfl, (Option.some.inj h4).symm, Or.inr ⟨hv, rfl, hr⟩⟩
        · rw [evictStep_remove_fail env st tbl hand hv hr] at hinj
          simp only [Prod.mk.injEq] at hinj
          exact absurd hinj.1 hr
      · rw [evictStep_invalid env st tbl hand (by simpa using hv)] at hinj
        simp only [Prod.mk.injEq] at hinj
        obtain ⟨-, h2, -, h4⟩ := hinj
        rw [← h2]
        exact ⟨rfl, rfl, rfl, (Option.some.inj h4).symm,
          Or.inl ⟨by simpa using hv, rfl⟩⟩

/-- The guard `if (rc != OK || rc != HASHNOTFOUND) return rc;` at buf.C line
162 is a tautology, so readPage always returns the raw lookup status with no
state change, no I/O and no page. -/
theorem readPage_eq_lookup (env : FileEnv) (st : BufMgr) (file : Nat) (pageNo : Int) :
    readPage env st file pageNo
      = some ((hashLookup st.hashTbl file pageNo).1, st, [], none) := by
  have hc : (hashLookup st.hashTbl file pageNo).1 ≠ Status.OK ∨
      (hashLookup st.hashTbl file pageNo).1 ≠ Status.HASHNOTFOUND := by
    rcases hashLookup_status st.hashTbl file pageNo with ho | ho
    · exact Or.inr (by rw [ho]; exact fun hcc => Status.noConfusion hcc)
    · exact Or.inl (by rw [ho]; exact fun hcc => Status.noConfusion hcc)
  unfold readPage
  dsimp only
  rw [if_pos hc]

/-- Claim C1 (code bug, at the failing input): page (1,5) is cached in frame
0 of stHit with pin count 1 and ref bit already consulted; fetching it
returns OK but leaves the state unchanged (pin count still 1, no reference
to the frame's contents is produced, no I/O), because the guard at buf.C
line 162 returns the lookup status unconditionally, so neither the hit path
nor the miss path ever executes. -/
theorem C1_readPage_hit_dead_code :
    readPage exEnv stHit 1 5 = some (Status.OK, stHit, [], none) ∧
    (descAt stHit 0).pinCnt = 1 ∧ (hashLookup stHit.hashTbl 1 5).1 = Status.OK := by
  decide

/-- Claim C2 (code bug, at the failing input): in stHit every frame is
pinned and page (1,6) is not cached; fetch of (1,6) leaves every descriptor
unchanged but returns HASHNOTFOUND rather than the out-of-frames status
BUFFEREXCEEDED, because the tautological guard at buf.C line 162 returns the
lookup status before the replacement policy is ever consulted. -/
theorem C2_fetch_all_pinned_wrong_status :
    (∀ i, i < stHit.numBufs → 0 < (descAt stHit i).pinCnt) ∧
    (hashLookup stHit.hashTbl 1 6).1 = Status.HASHNOTFOUND ∧
    readPage exEnv stHit 1 6 = some (Status.HASHNOTFOUND, stHit, [], none) := by
  decide

/-- Claim C3 counterexample: in stScan frame 1 is valid with pin count 0
(its ref bit merely set), yet allocBuf returns BUFFEREXCEEDED: the scan
counts the pinned frame 0 twice across the wrap-around before revisiting
frame 1, so the out-of-frames failure does not imply that every frame is
pinned. -/
theorem C3_counterexample :
    allocBuf exEnv stScan = some (Status.BUFFEREXCEEDED, stScanOut, [], none) ∧
    (descAt stScan 1).valid = true ∧ (descAt stScan 1).pinCnt = 0 := by
  decide

/-- Claim C3 (amended): the replacement scan always terminates, and it
returns the out-of-frames error only when every frame is valid and each
frame either has its ref bit set or is pinned at call time; in particular
whenever some frame is invalid, or valid with ref bit clear and pin count
zero, the scan selects a frame.  (As the counterexample shows, out-of-frames
does not require every frame to be pinned: a pinned frame can be counted
once per encounter, hence twice across the wrap-around.) -/
theorem C3_scan_terminates_amended (env : FileEnv) (st : BufMgr)
    (hlen : st.bufTable.length = st.numBufs) :
    (allocBuf env st).isSome ∧
    (∀ st1 ios fr, allocBuf env st = some (Status.BUFFEREXCEEDED, st1, ios, fr) →
      ∀ i, i < st.numBufs → (descAt st i).valid = true ∧
        ((descAt st i).refbit = true ∨ 0 < (descAt st i).pinCnt)) := by
  refine ⟨allocBuf_isSome env st hlen, ?_⟩
  intro st1 ios fr h i hi
  cases hv : (descAt st i).valid with
  | false =>
    exact absurd h (allocBuf_not_exceeded_of_eligible env st hlen i hi
      (Or.inl hv) st1 ios fr)
  | true =>
    refine ⟨rfl, ?_⟩
    cases hrb : (descAt st i).refbit with
    | true => exact Or.inl rfl
    | false =>
      by_cases hp : (descAt st i).pinCnt = 0
      · exact absurd h (allocBuf_not_exceeded_of_eligible env st hlen i hi
          (Or.inr ⟨hrb, hp⟩) st1 ios fr)
      · exact Or.inr (by omega)

/-- Witness for C3_scan_terminates_amended at the concrete pool stScan. -/
theorem C3_scan_terminates_witness :
    stScan.bufTable.length = stScan.numBufs ∧
    ((allocBuf exEnv stScan).isSome ∧
     (∀ st1 ios fr, allocBuf exEnv stScan = some (Status.BUFFEREXCEEDED, st1, ios, fr) →
       ∀ i, i < stScan.numBufs → (descAt stScan i).valid = true ∧
         ((descAt stScan i).refbit = true ∨ 0 < (descAt stScan i).pinCnt))) :=
  ⟨by decide, C3_scan_terminates_amended exEnv stScan (by decide)⟩

theorem allocBuf_some_frame_ok (env : FileEnv) (st : BufMgr)
    (rc : Status) (st1 : BufMgr) (ios : List IOEvent) (f : Nat)
    (h : allocBuf env st = some (rc, st1, ios, some f)) : rc = Status.OK := by
  match hsc : clockScan st.numBufs (2 * st.numBufs + 1) st.bufTable st.clockHand 0 with
  | none =>
    unfold allocBuf at h
    rw [hsc] at h
    exact Option.noConfusion h
  | some (tbl, hand, fnd) =>
    rw [allocBuf_scan_eq env st tbl hand fnd hsc] at h
    by_cases hf : fnd = false
    · rw [if_pos hf] at h
      simp only [Option.some.injEq, Prod.mk.injEq] at h
      exact Option.noConfusion h.2.2.2
    · rw [if_neg hf] at h
      have hinj := Option.some.inj h
      by_cases hv : (tbl.getD hand d0).valid = true
      · by_cases hr : (hashRemove st.hashTbl (tbl.getD hand d0).fileId
            (tbl.getD hand d0).pageNo).1 = Status.OK
        · by_cases hd : (tbl.getD hand d0).dirty = true
          · by_cases hw : env.writeSt (tbl.getD hand d0).fileId
                (tbl.getD hand d0).pageNo = Status.OK
            · rw [evictStep_ok_dirty env st tbl hand hv hr hd hw] at hinj
              simp only [Prod.mk.injEq] at hinj
              exact hinj.1.symm
            · rw [evictStep_write_fail env st tbl hand hv hr hd hw] at hinj
              simp only [Prod.mk.injEq] at hinj
              exact absurd hinj.2.2.2 Option.noConfusion
          · rw [evictStep_ok_clean env st tbl hand hv hr (by simpa using hd)] at hinj
            simp only [Prod.mk.injEq] at hinj
            exact hinj.1.symm
        · rw [evictStep_remove_fail env st tbl hand hv hr] at hinj
          simp only [Prod.mk.injEq] at hinj
          exact absurd hinj.2.2.2 Option.noConfusion
      · rw [evictStep_invalid env st tbl hand (by simpa using hv)] at hinj
        simp only [Prod.mk.injEq] at hinj
        exact hinj.1.symm

/-- Claim C4: the clock scan mutates descriptors only by clearing reference
bits (validity, pin counts, identity and dirty bits are untouched, and a
ref bit is never newly set), and whenever allocBuf hands out a frame, that
frame had pin count 0 before the call: a pinned frame is never selected as
a victim.  Well-formedness assumptions: the table has numBufs descriptors,
frameNo equals the index, and invalid frames carry pin count 0. -/
theorem C4_clock_never_selects_pinned (env : FileEnv) (st : BufMgr)
    (hlen : st.bufTable.length = st.numBufs)
    (hfid : ∀ i, i < st.numBufs → (descAt st i).frameNo = i)
    (hinvpin : ∀ i, i < st.numBufs →
      (descAt st i).valid = false → (descAt st i).pinCnt = 0) :
    ∀ rc st1 ios fr, allocBuf env st = some (rc, st1, ios, fr) →
      refbitOnly st.bufTable st1.bufTable ∧
      (∀ f, fr = some f → f < st.numBufs ∧ (descAt st f).pinCnt = 0) := by
  intro rc st1 ios fr h
  refine ⟨(allocBuf_effect env st rc st1 ios fr h).1, ?_⟩
  intro f hfr
  subst hfr
  have hok := allocBuf_some_frame_ok env st rc st1 ios f h
  subst hok
  obtain ⟨tbl2, hand2, hsc, -, -, -, hfno, -⟩ := allocBuf_ok_cases env st st1 ios f h
  obtain ⟨hh2, helig⟩ := scan_found_spec st.numBufs (2 * st.numBufs + 1)
    st.bufTable st.clockHand 0 tbl2 hand2 hsc
  have hro := scan_refbitOnly st.numBufs (2 * st.numBufs + 1) st.bufTable
    st.clockHand 0 tbl2 hand2 true hsc
  obtain ⟨hfno2, -, -, hval2, -, hpin2, -⟩ := hro.2 hand2
  have hf2 : f = hand2 := by
    rw [hfno, hfno2]
    exact hfid hand2 hh2
  subst hf2
  refine ⟨hh2, ?_⟩
  show (st.bufTable.getD f d0).pinCnt = 0
  rcases helig with hv | ⟨-, hp⟩
  · have hvf : (st.bufTable.getD f d0).valid = false := by rw [← hval2]; exact hv
    exact hinvpin f hh2 hvf
  · rw [← hpin2]
    exact hp

/-- Witness for C4_clock_never_selects_pinned at the concrete pool stVict,
where allocBuf selects the unpinned frame 0. -/
theorem C4_clock_witness :
    (stVict.bufTable.length = stVict.numBufs ∧
     (∀ i, i < stVict.numBufs → (descAt stVict i).frameNo = i) ∧
     (∀ i, i < stVict.numBufs →
       (descAt stVict i).valid = false → (descAt stVict i).pinCnt = 0)) ∧
    (∀ rc st1 ios fr, allocBuf exEnv stVict = some (rc, st1, ios, fr) →
      refbitOnly stVict.bufTable st1.bufTable ∧
      (∀ f, fr = some f → f < stVict.numBufs ∧ (descAt stVict f).pinCnt = 0)) :=
  ⟨⟨by decide, by decide, by decide⟩,
   C4_clock_never_selects_pinned exEnv stVict (by decide) (by decide) (by decide)⟩

/-- Claim C7 (code bug, at the failing input): with a File whose
allocatePage reports UNIXERR, allocPage on a fresh one-frame pool still
returns OK together with a frame for the page number the failed allocation
happened to leave behind; buf.C line 252 discards the status of
file->allocatePage. -/
theorem C7_allocPage_ignores_alloc_failure :
    (envAllocFail.allocRes 1).1 = Status.UNIXERR ∧
    allocPage envAllocFail (initBufMgr 1) 1 =
      some (Status.OK, ⟨1, [⟨0, 1, 7, true, false, true, 1⟩], 0, [((1, 7), 0)]⟩,
        [IOEvent.allocPg 1], some 7, some 0) := by
  decide

theorem unPinPage_cases (st : BufMgr) (file : Nat) (pageNo : Int) (dirty : Bool) :
    ((hashLookup st.hashTbl file pageNo).1 ≠ Status.OK ∧
     unPinPage st file pageNo dirty = (Status.HASHNOTFOUND, st, [])) ∨
    ((hashLookup st.hashTbl file pageNo).1 = Status.OK ∧
     (((descAt st (hashLookup st.hashTbl file pageNo).2).pinCnt = 0 ∧
       unPinPage st file pageNo dirty = (Status.PAGENOTPINNED, st, [])) ∨
      (0 < (descAt st (hashLookup st.hashTbl file pageNo).2).pinCnt ∧
       unPinPage st file pageNo dirty =
         (Status.OK,
          { st with bufTable := st.bufTable.set (hashLookup st.hashTbl file pageNo).2 (unpinDesc (descAt st (hashLookup st.hashTbl file pageNo).2) dirty) },
          [])))) := by
  by_cases hl : (hashLookup st.hashTbl file pageNo).1 = Status.OK
  · right
    refine ⟨hl, ?_⟩
    by_cases hp : (st.bufTable.getD (hashLookup st.hashTbl file pageNo).2 d0).pinCnt = 0
    · left
      refine ⟨hp, ?_⟩
      unfold unPinPage
      dsimp only
      rw [if_neg (by rw [hl]; exact fun hc => hc rfl), if_pos hp]
    · right
      refine ⟨by simp only [descAt]; omega, ?_⟩
      unfold unPinPage
      dsimp only
      rw [if_neg (by rw [hl]; exact fun hc => hc rfl), if_neg hp]
      cases dirty with
      | false => simp [unpinDesc, descAt]
      | true => simp [unpinDesc, descAt]
  · left
    refine ⟨hl, ?_⟩
    unfold unPinPage
    dsimp only
    rw [if_pos hl]

/-- Claim C6: unPinPage performs no I/O; when the page is absent from the
index it returns HASHNOTFOUND with no state change; when the cached frame's
pin count is 0 it returns PAGENOTPINNED with no state change; otherwise it
decrements the pin count by exactly one and sets the dirty bit exactly when
the flag is true (the dirty bit is sticky: it is never cleared by
unpinning). -/
theorem C6_unPinPage_spec (st : BufMgr) (file : Nat) (pageNo : Int) (dirty : Bool) :
    (unPinPage st file pageNo dirty).2.2 = [] ∧
    ((hashLookup st.hashTbl file pageNo).1 ≠ Status.OK →
      unPinPage st file pageNo dirty = (Status.HASHNOTFOUND, st, [])) ∧
    (∀ fr, hashLookup st.hashTbl file pageNo = (Status.OK, fr) →
      ((descAt st fr).pinCnt = 0 →
        unPinPage st file pageNo dirty = (Status.PAGENOTPINNED, st, [])) ∧
      (0 < (descAt st fr).pinCnt →
        unPinPage st file pageNo dirty =
          (Status.OK,
           { st with bufTable := st.bufTable.set fr (unpinDesc (descAt st fr) dirty) },
           []))) := by
  rcases unPinPage_cases st file pageNo dirty with ⟨hl, heq⟩ | ⟨hl, hcase⟩
  · refine ⟨by rw [heq], fun _ => heq, fun fr hfr => absurd (by rw [hfr]) hl⟩
  · have hL2 : ∀ fr, hashLookup st.hashTbl file pageNo = (Status.OK, fr) →
        (hashLookup st.hashTbl file pageNo).2 = fr := fun fr hfr => by rw [hfr]
    rcases hcase with ⟨hp, heq⟩ | ⟨hp, heq⟩
    · refine ⟨by rw [heq], fun hno => absurd hl hno, fun fr hfr => ?_⟩
      have hfr2 := hL2 fr hfr
      rw [hfr2] at hp
      exact ⟨fun _ => heq, fun hgt => by omega⟩
    · refine ⟨by rw [heq], fun hno => absurd hl hno, fun fr hfr => ?_⟩
      have hfr2 := hL2 fr hfr
      rw [hfr2] at hp heq
      exact ⟨fun h0 => by omega, fun _ => heq⟩

/-- Witness for C6_unPinPage_spec: unpinning the cached, pinned page (1,5)
of stHit with the dirty flag set decrements the pin count to 0 and sets the
dirty bit. -/
theorem C6_unPinPage_witness :
    ((unPinPage stHit 1 5 true).2.2 = [] ∧
     ((hashLookup stHit.hashTbl 1 5).1 ≠ Status.OK →
       unPinPage stHit 1 5 true = (Status.HASHNOTFOUND, stHit, [])) ∧
     (∀ fr, hashLookup stHit.hashTbl 1 5 = (Status.OK, fr) →
       ((descAt stHit fr).pinCnt = 0 →
         unPinPage stHit 1 5 true = (Status.PAGENOTPINNED, stHit, [])) ∧
       (0 < (descAt stHit fr).pinCnt →
         unPinPage stHit 1 5 true =
           (Status.OK,
            { stHit with bufTable := stHit.bufTable.set fr (unpinDesc (descAt stHit fr) true) },
            [])))) ∧
    unPinPage stHit 1 5 true =
      (Status.OK, ⟨1, [⟨0, 1, 5, true, true, true, 0⟩], 0, [((1, 5), 0)]⟩, []) :=
  ⟨C6_unPinPage_spec stHit 1 5 true, by decide⟩

/-- Claim C10: unPinPage never modifies the ref bit of any frame, nor any
frame's validity, owning file, page number or frame number; when it fails
the whole state is unchanged; and on a successful call every frame other
than the looked-up one is completely unchanged - unpinning does not count
as an access for second-chance replacement. -/
theorem C10_unpin_never_touches_refbit (st : BufMgr) (file : Nat) (pageNo : Int)
    (dirty : Bool) :
    (∀ i, (descAt (unPinPage st file pageNo dirty).2.1 i).refbit = (descAt st i).refbit ∧
          (descAt (unPinPage st file pageNo dirty).2.1 i).valid = (descAt st i).valid ∧
          (descAt (unPinPage st file pageNo dirty).2.1 i).fileId = (descAt st i).fileId ∧
          (descAt (unPinPage st file pageNo dirty).2.1 i).pageNo = (descAt st i).pageNo ∧
          (descAt (unPinPage st file pageNo dirty).2.1 i).frameNo = (descAt st i).frameNo) ∧
    ((unPinPage st file pageNo dirty).1 ≠ Status.OK →
      (unPinPage st file pageNo dirty).2.1 = st) ∧
    (∀ fr, hashLookup st.hashTbl file pageNo = (Status.OK, fr) →
      ∀ i, i ≠ fr → descAt (unPinPage st file pageNo dirty).2.1 i = descAt st i) := by
  rcases unPinPage_cases st file pageNo dirty with ⟨hl, heq⟩ | ⟨hl, hcase⟩
  · rw [heq]
    exact ⟨fun i => ⟨rfl, rfl, rfl, rfl, rfl⟩, fun _ => rfl, fun fr hfr i hi => rfl⟩
  · rcases hcase with ⟨hp, heq⟩ | ⟨hp, heq⟩
    · rw [heq]
      exact ⟨fun i => ⟨rfl, rfl, rfl, rfl, rfl⟩, fun _ => rfl, fun fr hfr i hi => rfl⟩
    · rw [heq]
      refine ⟨fun i => ?_, fun hno => absurd rfl hno, fun fr hfr i hne => ?_⟩
      · simp only [descAt, getD_set]
        by_cases hc : (hashLookup st.hashTbl file pageNo).2 = i ∧
            (hashLookup st.hashTbl file pageNo).2 < st.bufTable.length
        · rw [if_pos hc]
          obtain ⟨hc1, -⟩ := hc
          subst hc1
          simp [unpinDesc, descAt]
        · rw [if_neg hc]
          exact ⟨rfl, rfl, rfl, rfl, rfl⟩
      · have hL : (hashLookup st.hashTbl file pageNo).2 = fr := by rw [hfr]
        have hcne : ¬((hashLookup st.hashTbl file pageNo).2 = i ∧
            (hashLookup st.hashTbl file pageNo).2 < st.bufTable.length) :=
          fun hc => hne ((hL.symm.trans hc.1).symm)
        simp only [descAt, getD_set]
        rw [if_neg hcne]


theorem hashLookup_after_remove (h : HashTbl) (f : Nat) (p : Int)
    (hn : (keysOf h).Nodup) :
    (hashLookup (hashRemove h f p).2 f p).1 = Status.HASHNOTFOUND := by
  rw [hashLookup_nf_iff]
  exact not_mem_keys_hashRemove h f p hn

/-- Claim C5: when the scan has selected a valid victim, allocBuf first
removes the victim's page-index entry and only then, if the victim is
dirty, writes it back, both before the frame number is handed out; a failed
index removal aborts with that error, no frame and no I/O (so the
write-back is never attempted); a failed write-back aborts with UNIXERR and
no frame; on success the caller receives the victim's frame number, the
write-back trace is exactly one write when the victim was dirty and empty
otherwise, and (for an index with no duplicate keys) the victim's entry is
no longer found. -/
theorem C5_evict_removes_then_writes (env : FileEnv) (st : BufMgr)
    (tbl : List BufDesc) (hand : Nat)
    (hsc : clockScan st.numBufs (2 * st.numBufs + 1) st.bufTable st.clockHand 0
      = some (tbl, hand, true))
    (hv : (tbl.getD hand d0).valid = true) :
    allocBuf env st = some (evictStep env st tbl hand) ∧
    ((hashRemove st.hashTbl (tbl.getD hand d0).fileId (tbl.getD hand d0).pageNo).1
        ≠ Status.OK →
      evictStep env st tbl hand =
        ((hashRemove st.hashTbl (tbl.getD hand d0).fileId (tbl.getD hand d0).pageNo).1,
         { st with bufTable := tbl, clockHand := hand }, [], none)) ∧
    ((hashRemove st.hashTbl (tbl.getD hand d0).fileId (tbl.getD hand d0).pageNo).1
        = Status.OK →
      (tbl.getD hand d0).dirty = true →
      env.writeSt (tbl.getD hand d0).fileId (tbl.getD hand d0).pageNo ≠ Status.OK →
      evictStep env st tbl hand =
        (Status.UNIXERR,
         (⟨st.numBufs, tbl, hand, (hashRemove st.hashTbl (tbl.getD hand d0).fileId (tbl.getD hand d0).pageNo).2⟩ : BufMgr),
         [IOEvent.writePg (tbl.getD hand d0).fileId (tbl.getD hand d0).pageNo], none)) ∧
    ((hashRemove st.hashTbl (tbl.getD hand d0).fileId (tbl.getD hand d0).pageNo).1
        = Status.OK →
      ((tbl.getD hand d0).dirty = true →
        env.writeSt (tbl.getD hand d0).fileId (tbl.getD hand d0).pageNo = Status.OK) →
      evictStep env st tbl hand =
        (Status.OK,
         (⟨st.numBufs, tbl, hand, (hashRemove st.hashTbl (tbl.getD hand d0).fileId (tbl.getD hand d0).pageNo).2⟩ : BufMgr),
         if (tbl.getD hand d0).dirty then
           [IOEvent.writePg (tbl.getD hand d0).fileId (tbl.getD hand d0).pageNo]
         else [],
         some (tbl.getD hand d0).frameNo)) ∧
    ((keysOf st.hashTbl).Nodup →
      (hashLookup (hashRemove st.hashTbl (tbl.getD hand d0).fileId
          (tbl.getD hand d0).pageNo).2
        (tbl.getD hand d0).fileId (tbl.getD hand d0).pageNo).1 = Status.HASHNOTFOUND) := by
  refine ⟨?_, ?_, ?_, ?_, ?_⟩
  · rw [allocBuf_scan_eq env st tbl hand true hsc,
      if_neg (fun hc => Bool.noConfusion hc)]
  · intro hr
    exact evictStep_remove_fail env st tbl hand hv hr
  · intro hr hd hw
    exact evictStep_write_fail env st tbl hand hv hr hd hw
  · intro hr hdw
    cases hd : (tbl.getD hand d0).dirty with
    | true =>
      rw [if_pos rfl]
      exact evictStep_ok_dirty env st tbl hand hv hr hd (hdw hd)
    | false =>
      rw [if_neg (fun hc => Bool.noConfusion hc)]
      exact evictStep_ok_clean env st tbl hand hv hr hd
  · intro hn
    exact hashLookup_after_remove st.hashTbl (tbl.getD hand d0).fileId
      (tbl.getD hand d0).pageNo hn

/-- Witness for C5_evict_removes_then_writes at the concrete pool stDirty:
the scan selects the dirty, unpinned frame 0 and the success case applies,
removing the entry and writing the page back. -/
theorem C5_evict_witness :
    (clockScan stDirty.numBufs (2 * stDirty.numBufs + 1) stDirty.bufTable
        stDirty.clockHand 0 = some (stDirty.bufTable, 0, true) ∧
     (stDirty.bufTable.getD 0 d0).valid = true) ∧
    (allocBuf exEnv stDirty = some (evictStep exEnv stDirty stDirty.bufTable 0) ∧
     ((hashRemove stDirty.hashTbl (stDirty.bufTable.getD 0 d0).fileId
         (stDirty.bufTable.getD 0 d0).pageNo).1 ≠ Status.OK →
       evictStep exEnv stDirty stDirty.bufTable 0 =
         ((hashRemove stDirty.hashTbl (stDirty.bufTable.getD 0 d0).fileId
             (stDirty.bufTable.getD 0 d0).pageNo).1,
          { stDirty with bufTable := stDirty.bufTable, clockHand := 0 }, [], none)) ∧
     ((hashRemove stDirty.hashTbl (stDirty.bufTable.getD 0 d0).fileId
         (stDirty.bufTable.getD 0 d0).pageNo).1 = Status.OK →
      (stDirty.bufTable.getD 0 d0).dirty = true →
      exEnv.writeSt (stDirty.bufTable.getD 0 d0).fileId
        (stDirty.bufTable.getD 0 d0).pageNo ≠ Status.OK →
      evictStep exEnv stDirty stDirty.bufTable 0 =
        (Status.UNIXERR,
         (⟨stDirty.numBufs, stDirty.bufTable, 0, (hashRemove stDirty.hashTbl (stDirty.bufTable.getD 0 d0).fileId (stDirty.bufTable.getD 0 d0).pageNo).2⟩ : BufMgr),
         [IOEvent.writePg (stDirty.bufTable.getD 0 d0).fileId
           (stDirty.bufTable.getD 0 d0).pageNo], none)) ∧
     ((hashRemove stDirty.hashTbl (stDirty.bufTable.getD 0 d0).fileId
         (stDirty.bufTable.getD 0 d0).pageNo).1 = Status.OK →
      ((stDirty.bufTable.getD 0 d0).dirty = true →
        exEnv.writeSt (stDirty.bufTable.getD 0 d0).fileId
          (stDirty.bufTable.getD 0 d0).pageNo = Status.OK) →
      evictStep exEnv stDirty stDirty.bufTable 0 =
        (Status.OK,
         (⟨stDirty.numBufs, stDirty.bufTable, 0, (hashRemove stDirty.hashTbl (stDirty.bufTable.getD 0 d0).fileId (stDirty.bufTable.getD 0 d0).pageNo).2⟩ : BufMgr),
         if (stDirty.bufTable.getD 0 d0).dirty then
           [IOEvent.writePg (stDirty.bufTable.getD 0 d0).fileId
             (stDirty.bufTable.getD 0 d0).pageNo]
         else [],
         some (stDirty.bufTable.getD 0 d0).frameNo)) ∧
     ((keysOf stDirty.hashTbl).Nodup →
      (hashLookup (hashRemove stDirty.hashTbl (stDirty.bufTable.getD 0 d0).fileId
          (stDirty.bufTable.getD 0 d0).pageNo).2
        (stDirty.bufTable.getD 0 d0).fileId (stDirty.bufTable.getD 0 d0).pageNo).1
        = Status.HASHNOTFOUND)) :=
  ⟨⟨by decide, by decide⟩,
   C5_evict_removes_then_writes exEnv stDirty stDirty.bufTable 0 (by decide) (by decide)⟩

/-- Witness for C10_unpin_never_touches_refbit at the concrete pool stHit. -/
theorem C10_unpin_witness :
    (∀ i, (descAt (unPinPage stHit 1 5 true).2.1 i).refbit = (descAt stHit i).refbit ∧
          (descAt (unPinPage stHit 1 5 true).2.1 i).valid = (descAt stHit i).valid ∧
          (descAt (unPinPage stHit 1 5 true).2.1 i).fileId = (descAt stHit i).fileId ∧
          (descAt (unPinPage stHit 1 5 true).2.1 i).pageNo = (descAt stHit i).pageNo ∧
          (descAt (unPinPage stHit 1 5 true).2.1 i).frameNo = (descAt stHit i).frameNo) ∧
    ((unPinPage stHit 1 5 true).1 ≠ Status.OK → (unPinPage stHit 1 5 true).2.1 = stHit) ∧
    (∀ fr, hashLookup stHit.hashTbl 1 5 = (Status.OK, fr) →
      ∀ i, i ≠ fr → descAt (unPinPage stHit 1 5 true).2.1 i = descAt stHit i) :=
  C10_unpin_never_touches_refbit stHit 1 5 true

/-- Claim C8 counterexample: in stFlush both frames belong to file 1; frame
0 is dirty and unpinned, frame 1 is pinned.  flushFile returns PAGEPINNED,
but frame 0 has already been written back (the I/O trace holds the write),
invalidated, and removed from the index - so a dirty page of the file was
flushed by the failing call, contradicting the claim that all of the file's
dirty pages are left unflushed. -/
theorem C8_counterexample :
    (descAt stFlush 1).valid = true ∧ (descAt stFlush 1).fileId = 1 ∧
    0 < (descAt stFlush 1).pinCnt ∧
    (descAt stFlush 0).dirty = true ∧ (descAt stFlush 0).fileId = 1 ∧
    flushFile exEnv stFlush 1 =
      (Status.PAGEPINNED,
       ⟨2, [⟨0, 0, -1, false, false, false, 0⟩, ⟨1, 1, 2, true, false, false, 1⟩], 1,
        [((1, 2), 1)]⟩,
       [IOEvent.writePg 1 1]) := by
  decide

theorem flushLoop_reaches_pinned (env : FileEnv) (file : Nat) :
    ∀ (fuel k i : Nat) (tbl : List BufDesc) (h : HashTbl),
      k ≤ i → i < k + fuel →
      (tbl.getD i d0).valid = true → (tbl.getD i d0).fileId = file →
      0 < (tbl.getD i d0).pinCnt →
      (∀ j, k ≤ j → j < i →
        ¬((tbl.getD j d0).valid = true ∧ (tbl.getD j d0).fileId = file ∧
          0 < (tbl.getD j d0).pinCnt) ∧
        ¬((tbl.getD j d0).valid = false ∧ (tbl.getD j d0).fileId = file) ∧
        ((tbl.getD j d0).valid = true → (tbl.getD j d0).fileId = file →
          (tbl.getD j d0).dirty = true →
          env.writeSt file (tbl.getD j d0).pageNo = Status.OK)) →
      (flushLoop env file fuel k tbl h).1 = Status.PAGEPINNED ∧
      ∀ j, i ≤ j → (flushLoop env file fuel k tbl h).2.1.getD j d0 = tbl.getD j d0 := by
  intro fuel
  induction fuel with
  | zero => intro k i tbl h hk hlt; omega
  | succ fuel ih =>
    intro k i tbl h hk hlt hvi hfi hpi hbef
    by_cases hki : k = i
    · subst hki
      have hstep : flushLoop env file (fuel + 1) k tbl h = (Status.PAGEPINNED, tbl, h, []) := by
        unfold flushLoop
        dsimp only
        rw [if_pos ⟨hvi, hfi⟩, if_pos hpi]
      rw [hstep]
      exact ⟨rfl, fun j hj => rfl⟩
    · have hklt : k < i := by omega
      obtain ⟨hnp, hnb, hwok⟩ := hbef k (le_refl k) hklt
      by_cases hc1 : (tbl.getD k d0).valid = true ∧ (tbl.getD k d0).fileId = file
      · have hpz : ¬(0 < (tbl.getD k d0).pinCnt) := fun hgt => hnp ⟨hc1.1, hc1.2, hgt⟩
        have hwc : ¬((tbl.getD k d0).dirty = true ∧
            env.writeSt file (tbl.getD k d0).pageNo ≠ Status.OK) := by
          intro hcc
          exact hcc.2 (hwok hc1.1 hc1.2 hcc.1)
        have hstep : flushLoop env file (fuel + 1) k tbl h =
            (let d := tbl.getD k d0
             let d2 : BufDesc := { d with dirty := false, fileId := 0, pageNo := -1, valid := false }
             let res := flushLoop env file fuel (k + 1) (tbl.set k d2) ((hashRemove h file d.pageNo).2)
             (res.1, res.2.1, res.2.2.1,
               (if d.dirty then [IOEvent.writePg file d.pageNo] else []) ++ res.2.2.2)) := by
          conv_lhs => simp only [flushLoop]
          rw [if_pos hc1, if_neg hpz, if_neg hwc]
        rw [hstep]
        dsimp only
        have hset : ∀ j, k < j → (tbl.set k
            { tbl.getD k d0 with dirty := false, fileId := 0, pageNo := -1, valid := false }).getD j d0
            = tbl.getD j d0 := fun j hj => getD_set_ne _ _ _ _ _ (by omega)
        have hih := ih (k + 1) i _ ((hashRemove h file (tbl.getD k d0).pageNo).2)
          (by omega) (by omega)
          (by rw [hset i hklt]; exact hvi) (by rw [hset i hklt]; exact hfi)
          (by rw [hset i hklt]; exact hpi)
          (by
            intro j hj1 hj2
            rw [hset j (by omega)]
            exact hbef j (by omega) hj2)
        refine ⟨hih.1, fun j hj => ?_⟩
        rw [hih.2 j hj, hset j (by omega)]
      · have hnb2 : ¬((tbl.getD k d0).valid = false ∧ (tbl.getD k d0).fileId = file) := hnb
        have hstep : flushLoop env file (fuel + 1) k tbl h
            = flushLoop env file fuel (k + 1) tbl h := by
          conv_lhs => simp only [flushLoop]
          rw [if_neg hc1, if_neg hnb2]
        rw [hstep]
        exact ih (k + 1) i tbl h (by omega) (by omega) hvi hfi hpi
          (fun j hj1 hj2 => hbef j (by omega) hj2)

/-- Claim C8 (amended): if frame i is the first frame (in scan order) of the
flushed file that stops the loop, and that frame is pinned, then flushFile
returns PAGEPINNED and every frame at or after i is untouched; pages of the
file in earlier frames, however, have already been flushed and invalidated
by the same failing call (write-backs of those earlier frames are assumed to
succeed, and no earlier frame is in the inconsistent not-valid-but-owned
state). -/
theorem C8_flush_pinned_amended (env : FileEnv) (st : BufMgr) (file : Nat) (i : Nat)
    (hi : i < st.numBufs)
    (hvi : (descAt st i).valid = true) (hfi : (descAt st i).fileId = file)
    (hpi : 0 < (descAt st i).pinCnt)
    (hbef : ∀ j, j < i →
      ¬((descAt st j).valid = true ∧ (descAt st j).fileId = file ∧
        0 < (descAt st j).pinCnt) ∧
      ¬((descAt st j).valid = false ∧ (descAt st j).fileId = file) ∧
      ((descAt st j).valid = true → (descAt st j).fileId = file →
        (descAt st j).dirty = true →
        env.writeSt file (descAt st j).pageNo = Status.OK)) :
    (flushFile env st file).1 = Status.PAGEPINNED ∧
    ∀ j, i ≤ j → descAt (flushFile env st file).2.1 j = descAt st j := by
  have hmain := flushLoop_reaches_pinned env file st.numBufs 0 i st.bufTable st.hashTbl
    (by omega) (by omega) hvi hfi hpi (fun j hj1 hj2 => hbef j hj2)
  unfold flushFile
  dsimp only
  exact ⟨hmain.1, fun j hj => hmain.2 j hj⟩

/-- Witness for C8_flush_pinned_amended at the concrete pool stFlush with
the pinned frame i = 1. -/
theorem C8_flush_pinned_witness :
    (1 < stFlush.numBufs ∧ (descAt stFlush 1).valid = true ∧
     (descAt stFlush 1).fileId = 1 ∧ 0 < (descAt stFlush 1).pinCnt ∧
     (∀ j, j < 1 →
       ¬((descAt stFlush j).valid = true ∧ (descAt stFlush j).fileId = 1 ∧
         0 < (descAt stFlush j).pinCnt) ∧
       ¬((descAt stFlush j).valid = false ∧ (descAt stFlush j).fileId = 1) ∧
       ((descAt stFlush j).valid = true → (descAt stFlush j).fileId = 1 →
         (descAt stFlush j).dirty = true →
         exEnv.writeSt 1 (descAt stFlush j).pageNo = Status.OK))) ∧
    ((flushFile exEnv stFlush 1).1 = Status.PAGEPINNED ∧
     ∀ j, 1 ≤ j → descAt (flushFile exEnv stFlush 1).2.1 j = descAt stFlush j) :=
  ⟨⟨by decide, by decide, by decide, by decide, by decide⟩,
   C8_flush_pinned_amended exEnv stFlush 1 1 (by decide) (by decide) (by decide)
     (by decide) (by decide)⟩

theorem InvT_entry_eq (n : Nat) (tbl : List BufDesc) (h : HashTbl)
    (hinv : InvT n tbl h) (e1 e2 : (Nat × Int) × Nat)
    (h1 : e1 ∈ h) (h2 : e2 ∈ h) (hfr : e1.2 = e2.2) : e1 = e2 := by
  apply nodupKeys_inj h hinv.2.2 e1 e2 h1 h2
  have a1 : (tbl.getD e1.2 d0).fileId = e1.1.1 := (hinv.1 e1 h1).2.2.1
  have a2 : (tbl.getD e1.2 d0).pageNo = e1.1.2 := (hinv.1 e1 h1).2.2.2
  have b1 : (tbl.getD e2.2 d0).fileId = e2.1.1 := (hinv.1 e2 h2).2.2.1
  have b2 : (tbl.getD e2.2 d0).pageNo = e2.1.2 := (hinv.1 e2 h2).2.2.2
  have hx : e1.1 = (e1.1.1, e1.1.2) := rfl
  rw [hx, ← a1, ← a2, hfr, b1, b2]

/-- A table rewrite that preserves each frame's validity and identity
preserves the invariant. -/
theorem InvT_table_compat (n : Nat) (tbl tbl2 : List BufDesc) (h : HashTbl)
    (hsame : ∀ i, (tbl2.getD i d0).valid = (tbl.getD i d0).valid ∧
       (tbl2.getD i d0).fileId = (tbl.getD i d0).fileId ∧
       (tbl2.getD i d0).pageNo = (tbl.getD i d0).pageNo)
    (hinv : InvT n tbl h) : InvT n tbl2 h := by
  obtain ⟨c1, c2, c3⟩ := hinv
  refine ⟨?_, ?_, c3⟩
  · intro e he
    obtain ⟨f1, f2, f3, f4⟩ := c1 e he
    obtain ⟨s1, s2, s3⟩ := hsame e.2
    exact ⟨f1, s1.trans f2, s2.trans f3, s3.trans f4⟩
  · intro i hi hv
    obtain ⟨s1, s2, s3⟩ := hsame i
    rw [s2, s3]
    exact c2 i hi (s1.symm.trans hv)

theorem d0_valid : d0.valid = false := rfl

theorem valid_lt_length (tbl : List BufDesc) (j : Nat)
    (hv : (tbl.getD j d0).valid = true) : j < tbl.length := by
  by_contra hc
  rw [getD_ge tbl j d0 (by omega)] at hv
  exact Bool.noConfusion (d0_valid.symm.trans hv)

/-- Invalidating a valid frame and removing its index entry preserves the
invariant. -/
theorem InvT_invalidate_remove (n : Nat) (tbl : List BufDesc) (h : HashTbl)
    (hlen : tbl.length = n) (hinv : InvT n tbl h) (j : Nat) (dnew : BufDesc)
    (hvj : (tbl.getD j d0).valid = true) (hnewinv : dnew.valid = false) :
    InvT n (tbl.set j dnew)
      (hashRemove h (tbl.getD j d0).fileId (tbl.getD j d0).pageNo).2 := by
  obtain ⟨c1, c2, c3⟩ := hinv
  have hjlen : j < tbl.length := valid_lt_length tbl j hvj
  have hjn : j < n := by omega
  have hent : (((tbl.getD j d0).fileId, (tbl.getD j d0).pageNo), j) ∈ h := c2 j hjn hvj
  refine ⟨?_, ?_, keys_hashRemove_nodup h _ _ c3⟩
  · intro e he
    have heh : e ∈ h := hashRemove_subset h _ _ e he
    obtain ⟨f1, f2, f3, f4⟩ := c1 e heh
    have hej : e.2 ≠ j := by
      intro hej
      have hkeyj : e.1 = ((tbl.getD j d0).fileId, (tbl.getD j d0).pageNo) := by
        have hx : e.1 = (e.1.1, e.1.2) := rfl
        rw [hx, ← f3, ← f4, hej]
      have hmem : e.1 ∈ keysOf (hashRemove h (tbl.getD j d0).fileId
          (tbl.getD j d0).pageNo).2 := List.mem_map_of_mem (fun x => x.1) he
      rw [hkeyj] at hmem
      exact not_mem_keys_hashRemove h _ _ c3 hmem
    rw [getD_set_ne tbl j e.2 dnew d0 (fun hc => hej hc.symm)]
    exact ⟨f1, f2, f3, f4⟩
  · intro i hi hv
    have hij : i ≠ j := by
      intro hij
      subst hij
      rw [getD_set_self tbl i dnew d0 hjlen] at hv
      exact Bool.noConfusion (hnewinv.symm.trans hv)
    rw [getD_set_ne tbl j i dnew d0 (fun hc => hij hc.symm)] at hv ⊢
    have hmem := c2 i hi hv
    apply mem_hashRemove h _ _ _ hmem
    intro hkey
    have : (((tbl.getD i d0).fileId, (tbl.getD i d0).pageNo), i)
        = (((tbl.getD j d0).fileId, (tbl.getD j d0).pageNo), j) :=
      nodupKeys_inj h c3 _ _ hmem hent hkey
    exact hij (congrArg (fun x => x.2) this)

theorem hashInsert_ok (h : HashTbl) (f : Nat) (p : Int) (fr : Nat)
    (hok : (hashInsert h f p fr).1 = Status.OK) :
    (f, p) ∉ keysOf h ∧ (hashInsert h f p fr).2 = ((f, p), fr) :: h := by
  unfold hashInsert at hok ⊢
  by_cases hl : (hashLookup h f p).1 = Status.OK
  · rw [if_pos hl] at hok
    exact Status.noConfusion hok
  · rw [if_neg hl]
    have hnf : (hashLookup h f p).1 = Status.HASHNOTFOUND := by
      rcases hashLookup_status h f p with ho | ho
      · exact absurd ho hl
      · exact ho
    exact ⟨(hashLookup_nf_iff h f p).mp hnf, rfl⟩

/-- Filling an unreferenced frame with a fresh page and inserting its entry
preserves the invariant. -/
theorem InvT_insert_set (n : Nat) (tbl : List BufDesc) (h : HashTbl)
    (hlen : tbl.length = n) (hinv : InvT n tbl h)
    (fr : Nat) (hfr : fr < n)
    (hnoref : ∀ e ∈ h, e.2 ≠ fr)
    (f : Nat) (p : Int) (hkey : (f, p) ∉ keysOf h) :
    InvT n (tbl.set fr (setDesc (tbl.getD fr d0) f p)) (((f, p), fr) :: h) := by
  obtain ⟨c1, c2, c3⟩ := hinv
  have hfrlen : fr < tbl.length := by omega
  refine ⟨?_, ?_, ?_⟩
  · intro e he
    rcases List.mem_cons.mp he with rfl | heh
    · rw [getD_set_self tbl fr _ d0 hfrlen]
      exact ⟨hfr, rfl, rfl, rfl⟩
    · obtain ⟨f1, f2, f3, f4⟩ := c1 e heh
      rw [getD_set_ne tbl fr e.2 _ d0 (fun hc => hnoref e heh hc.symm)]
      exact ⟨f1, f2, f3, f4⟩
  · intro i hi hv
    by_cases hif : i = fr
    · subst hif
      rw [getD_set_self tbl i _ d0 hfrlen]
      exact List.mem_cons_self _ _
    · rw [getD_set_ne tbl fr i _ d0 (fun hc => hif hc.symm)] at hv ⊢
      exact List.mem_cons_of_mem _ (c2 i hi hv)
  · unfold keysOf
    rw [List.map_cons]
    exact List.nodup_cons.mpr ⟨hkey, c3⟩


theorem initBufMgr_length (n : Nat) : (initBufMgr n).bufTable.length = n := by
  unfold initBufMgr
  simp

theorem initBufMgr_desc (n i : Nat) (hi : i < n) :
    (initBufMgr n).bufTable.getD i d0 = ⟨i, 0, 0, false, false, false, 0⟩ := by
  unfold initBufMgr
  dsimp only
  rw [List.getD_eq_getElem?_getD, List.getElem?_map, List.getElem?_range hi]
  rfl

theorem Inv_initBufMgr (n : Nat) : Inv (initBufMgr n) := by
  refine ⟨?_, ?_, ?_⟩
  · intro e he
    simp [initBufMgr] at he
  · intro i hi hv
    rw [initBufMgr_desc n i hi] at hv
    exact Bool.noConfusion hv
  · simp [initBufMgr, keysOf]

theorem Inv_readPage (env : FileEnv) (st : BufMgr) (file : Nat) (pageNo : Int)
    (hinv : Inv st) (r : Status × BufMgr × List IOEvent × Option Nat)
    (h : readPage env st file pageNo = some r) : Inv r.2.1 := by
  rw [readPage_eq_lookup env st file pageNo] at h
  have hr := (Option.some.inj h).symm
  rw [hr]
  exact hinv

theorem Inv_unPinPage (st : BufMgr) (file : Nat) (pageNo : Int) (dirty : Bool)
    (hinv : Inv st) : Inv (unPinPage st file pageNo dirty).2.1 := by
  rcases unPinPage_cases st file pageNo dirty with ⟨-, heq⟩ | ⟨-, hcase⟩
  · rw [heq]
    exact hinv
  · rcases hcase with ⟨-, heq⟩ | ⟨-, heq⟩
    · rw [heq]
      exact hinv
    · rw [heq]
      show InvT st.numBufs _ st.hashTbl
      apply InvT_table_compat st.numBufs st.bufTable _ st.hashTbl ?_ hinv
      intro i
      rw [getD_set]
      by_cases hc : (hashLookup st.hashTbl file pageNo).2 = i ∧
          (hashLookup st.hashTbl file pageNo).2 < st.bufTable.length
      · rw [if_pos hc]
        obtain ⟨hc1, -⟩ := hc
        subst hc1
        simp [unpinDesc, descAt]
      · rw [if_neg hc]
        exact ⟨rfl, rfl, rfl⟩

theorem Inv_disposePage (env : FileEnv) (st : BufMgr) (file : Nat) (pageNo : Int)
    (hinv : Inv st) (hlen : st.bufTable.length = st.numBufs) :
    Inv (disposePage env st file pageNo).2.1 := by
  unfold disposePage
  dsimp only
  by_cases hl : (hashLookup st.hashTbl file pageNo).1 = Status.OK
  · rw [if_pos hl]
    have hmem := hashLookup_ok_mem st.hashTbl file pageNo hl
    obtain ⟨hfn, hfv, hff, hfp⟩ := hinv.1 _ hmem
    have hstep := InvT_invalidate_remove st.numBufs st.bufTable st.hashTbl hlen hinv
      (hashLookup st.hashTbl file pageNo).2
      (clearDesc (st.bufTable.getD (hashLookup st.hashTbl file pageNo).2 d0)) hfv rfl
    rw [hff, hfp] at hstep
    exact hstep
  · rw [if_neg hl]
    have hnf : (hashLookup st.hashTbl file pageNo).1 = Status.HASHNOTFOUND := by
      rcases hashLookup_status st.hashTbl file pageNo with ho | ho
      · exact absurd ho hl
      · exact ho
    rw [hashRemove_of_nf st.hashTbl file pageNo hnf]
    exact hinv


theorem flushLoop_preserves (env : FileEnv) (file : Nat) (n : Nat) :
    ∀ (fuel k : Nat) (tbl : List BufDesc) (h : HashTbl),
      tbl.length = n → InvT n tbl h →
      (flushLoop env file fuel k tbl h).2.1.length = n ∧
      InvT n (flushLoop env file fuel k tbl h).2.1
        (flushLoop env file fuel k tbl h).2.2.1 := by
  intro fuel
  induction fuel with
  | zero =>
    intro k tbl h hlen hinv
    exact ⟨hlen, hinv⟩
  | succ fuel ih =>
    intro k tbl h hlen hinv
    by_cases hc1 : (tbl.getD k d0).valid = true ∧ (tbl.getD k d0).fileId = file
    · by_cases hp : 0 < (tbl.getD k d0).pinCnt
      · have hstep : flushLoop env file (fuel + 1) k tbl h
            = (Status.PAGEPINNED, tbl, h, []) := by
          conv_lhs => simp only [flushLoop]
          rw [if_pos hc1, if_pos hp]
        rw [hstep]
        exact ⟨hlen, hinv⟩
      · by_cases hw : (tbl.getD k d0).dirty = true ∧
            env.writeSt file (tbl.getD k d0).pageNo ≠ Status.OK
        · have hstep : flushLoop env file (fuel + 1) k tbl h
              = (env.writeSt file (tbl.getD k d0).pageNo, tbl, h,
                 [IOEvent.writePg file (tbl.getD k d0).pageNo]) := by
            conv_lhs => simp only [flushLoop]
            rw [if_pos hc1, if_neg hp, if_pos hw]
          rw [hstep]
          exact ⟨hlen, hinv⟩
        · have hstep : flushLoop env file (fuel + 1) k tbl h =
              (let d := tbl.getD k d0
               let d2 : BufDesc := { d with dirty := false, fileId := 0, pageNo := -1, valid := false }
               let res := flushLoop env file fuel (k + 1) (tbl.set k d2) ((hashRemove h file d.pageNo).2)
               (res.1, res.2.1, res.2.2.1,
                 (if d.dirty then [IOEvent.writePg file d.pageNo] else []) ++ res.2.2.2)) := by
            conv_lhs => simp only [flushLoop]
            rw [if_pos hc1, if_neg hp, if_neg hw]
          rw [hstep]
          dsimp only
          have hinv2 := InvT_invalidate_remove n tbl h hlen hinv k
            { tbl.getD k d0 with dirty := false, fileId := 0, pageNo := -1, valid := false }
            hc1.1 rfl
          rw [hc1.2] at hinv2
          exact ih (k + 1) _ _ (by rw [List.length_set]; exact hlen) hinv2
    · by_cases hb : (tbl.getD k d0).valid = false ∧ (tbl.getD k d0).fileId = file
      · have hstep : flushLoop env file (fuel + 1) k tbl h
            = (Status.BADBUFFER, tbl, h, []) := by
          conv_lhs => simp only [flushLoop]
          rw [if_neg hc1, if_pos hb]
        rw [hstep]
        exact ⟨hlen, hinv⟩
      · have hstep : flushLoop env file (fuel + 1) k tbl h
            = flushLoop env file fuel (k + 1) tbl h := by
          conv_lhs => simp only [flushLoop]
          rw [if_neg hc1, if_neg hb]
        rw [hstep]
        exact ih (k + 1) tbl h hlen hinv

theorem Inv_flushFile (env : FileEnv) (st : BufMgr) (file : Nat)
    (hinv : Inv st) (hlen : st.bufTable.length = st.numBufs) :
    Inv (flushFile env st file).2.1 := by
  unfold flushFile
  dsimp only
  exact (flushLoop_preserves env file st.numBufs st.numBufs 0
    st.bufTable st.hashTbl hlen hinv).2


theorem allocBuf_ok_some (env : FileEnv) (st : BufMgr)
    (st1 : BufMgr) (ios : List IOEvent) (fr : Option Nat)
    (h : allocBuf env st = some (Status.OK, st1, ios, fr)) : ∃ f, fr = some f := by
  match hsc : clockScan st.numBufs (2 * st.numBufs + 1) st.bufTable st.clockHand 0 with
  | none =>
    unfold allocBuf at h
    rw [hsc] at h
    exact Option.noConfusion h
  | some (tbl, hand, fnd) =>
    rw [allocBuf_scan_eq env st tbl hand fnd hsc] at h
    by_cases hf : fnd = false
    · rw [if_pos hf] at h
      simp only [Option.some.injEq, Prod.mk.injEq] at h
      exact absurd h.1 (by decide)
    · rw [if_neg hf] at h
      have hinj := Option.some.inj h
      by_cases hv : (tbl.getD hand d0).valid = true
      · by_cases hr : (hashRemove st.hashTbl (tbl.getD hand d0).fileId
            (tbl.getD hand d0).pageNo).1 = Status.OK
        · by_cases hd : (tbl.getD hand d0).dirty = true
          · by_cases hw : env.writeSt (tbl.getD hand d0).fileId
                (tbl.getD hand d0).pageNo = Status.OK
            · rw [evictStep_ok_dirty env st tbl hand hv hr hd hw] at hinj
              simp only [Prod.mk.injEq] at hinj
              exact ⟨(tbl.getD hand d0).frameNo, hinj.2.2.2.symm⟩
            · rw [evictStep_write_fail env st tbl hand hv hr hd hw] at hinj
              simp only [Prod.mk.injEq] at hinj
              exact absurd hinj.1 (by decide)
          · rw [evictStep_ok_clean env st tbl hand hv hr (by simpa using hd)] at hinj
            simp only [Prod.mk.injEq] at hinj
            exact ⟨(tbl.getD hand d0).frameNo, hinj.2.2.2.symm⟩
        · rw [evictStep_remove_fail env st tbl hand hv hr] at hinj
          simp only [Prod.mk.injEq] at hinj
          exact absurd hinj.1 hr
      · rw [evictStep_invalid env st tbl hand (by simpa using hv)] at hinj
        simp only [Prod.mk.injEq] at hinj
        exact ⟨(tbl.getD hand d0).frameNo, hinj.2.2.2.symm⟩

theorem setDesc_clearDesc (x : BufDesc) (f : Nat) (p : Int) :
    setDesc (clearDesc x) f p = setDesc x f p := rfl

theorem Inv_allocPage (env : FileEnv) (st : BufMgr) (file : Nat)
    (hinv : Inv st) (hwf : Wf st)
    (r : Status × BufMgr × List IOEvent × Option Int × Option Nat)
    (h : allocPage env st file = some r)
    (hrc : r.1 = Status.OK ∨ r.1 = Status.BUFFEREXCEEDED) : Inv r.2.1 := by
  obtain ⟨hlen, hfid⟩ := hwf
  unfold allocPage at h
  dsimp only at h
  match hab : allocBuf env st with
  | none =>
    rw [hab] at h
    exact Option.noConfusion h
  | some (rc0, st1, ios, fr) =>
    rw [hab] at h
    dsimp only at h
    by_cases hrc0 : rc0 = Status.OK
    · subst hrc0
      rw [if_neg (fun hc => hc rfl)] at h
      by_cases hins : (hashInsert st1.hashTbl file (env.allocRes file).2 (fr.getD 0)).1
          = Status.OK
      · rw [if_neg (by rw [hins]; exact fun hc => hc rfl)] at h
        obtain ⟨f0, hf0⟩ := allocBuf_ok_some env st st1 ios fr hab
        subst hf0
        simp only [Option.getD_some] at h hins
        obtain ⟨tbl2, hand2, hsc, hnum, htbl, hhand, hfno, hdisj⟩ :=
          allocBuf_ok_cases env st st1 ios f0 hab
        have hro := scan_refbitOnly st.numBufs (2 * st.numBufs + 1) st.bufTable
          st.clockHand 0 tbl2 hand2 true hsc
        obtain ⟨hh2, -⟩ := scan_found_spec st.numBufs (2 * st.numBufs + 1)
          st.bufTable st.clockHand 0 tbl2 hand2 hsc
        have hlen2 : tbl2.length = st.numBufs := by rw [hro.1, hlen]
        have hf0h : f0 = hand2 := by
          rw [hfno, (hro.2 hand2).1]
          exact hfid hand2 hh2
        have hinvt2 : InvT st.numBufs tbl2 st.hashTbl := by
          apply InvT_table_compat st.numBufs st.bufTable tbl2 st.hashTbl ?_ hinv
          intro i
          obtain ⟨-, f2, f3, f4, -, -, -⟩ := hro.2 i
          exact ⟨f4, f2, f3⟩
        obtain ⟨hkey, hcons⟩ := hashInsert_ok st1.hashTbl file (env.allocRes file).2 f0 hins
        have hr := (Option.some.inj h).symm
        rw [hr]
        show Inv ⟨st1.numBufs, st1.bufTable.set f0
          (setDesc (st1.bufTable.getD f0 d0) file (env.allocRes file).2),
          st1.clockHand,
          (hashInsert st1.hashTbl file (env.allocRes file).2 f0).2⟩
        rw [hcons]
        unfold Inv
        dsimp only
        rw [hnum, htbl, hf0h]
        rcases hdisj with ⟨hvinv, hh⟩ | ⟨hvval, hh, -⟩
        · rw [hh] at hkey ⊢
          apply InvT_insert_set st.numBufs tbl2 st.hashTbl hlen2 hinvt2 hand2 hh2
            ?_ file (env.allocRes file).2 hkey
          intro e he heq
          have := (hinvt2.1 e he).2.1
          rw [heq] at this
          exact Bool.noConfusion (hvinv.symm.trans this)
        · rw [hh] at hkey ⊢
          have hh2len : hand2 < tbl2.length := by omega
          have s1 := InvT_invalidate_remove st.numBufs tbl2 st.hashTbl hlen2 hinvt2
            hand2 (clearDesc (tbl2.getD hand2 d0)) hvval rfl
          have s2 := InvT_insert_set st.numBufs
            (tbl2.set hand2 (clearDesc (tbl2.getD hand2 d0)))
            (hashRemove st.hashTbl (tbl2.getD hand2 d0).fileId (tbl2.getD hand2 d0).pageNo).2
            (by rw [List.length_set]; exact hlen2) s1 hand2 hh2
            ?_ file (env.allocRes file).2 hkey
          · rw [getD_set_self tbl2 hand2 _ d0 hh2len, List.set_set,
              setDesc_clearDesc] at s2
            exact s2
          · intro e he heq
            have := (s1.1 e he).2.1
            rw [heq, getD_set_self tbl2 hand2 _ d0 hh2len] at this
            exact Bool.noConfusion this
      · rw [if_pos hins] at h
        have hr := (Option.some.inj h).symm
        rw [hr] at hrc
        rcases hrc with ho | ho <;> exact Status.noConfusion ho
    · rw [if_pos hrc0] at h
      have hr := (Option.some.inj h).symm
      rcases hrc with ho | ho
      · rw [hr] at ho
        exact absurd ho hrc0
      · have hbe : rc0 = Status.BUFFEREXCEEDED := by rw [hr] at ho; exact ho
        subst hbe
        obtain ⟨tbl2, hand2, hsc2, hst1, -, -⟩ :=
          allocBuf_exceeded_scan env st st1 ios fr hab
        have hro := scan_refbitOnly st.numBufs (2 * st.numBufs + 1) st.bufTable
          st.clockHand 0 tbl2 hand2 false hsc2
        rw [hr]
        show Inv st1
        rw [hst1]
        show InvT st.numBufs tbl2 st.hashTbl
        apply InvT_table_compat st.numBufs st.bufTable tbl2 st.hashTbl ?_ hinv
        intro i
        obtain ⟨-, f2, f3, f4, -, -, -⟩ := hro.2 i
        exact ⟨f4, f2, f3⟩

/-- Claim C9 counterexample: in stVict the single frame is valid, unpinned
and mapped by the single index entry, so the bijection invariant holds; the
replacement step allocBuf succeeds, removing the entry while leaving the
frame marked valid, and the invariant is broken in the resulting state:
a valid frame with no index entry. -/
theorem C9_counterexample :
    Inv stVict ∧ Wf stVict ∧
    allocBuf exEnv stVict = some (Status.OK, stVictOut, [], some 0) ∧
    ¬ Inv stVictOut := by
  decide

/-- Claim C9 (amended): the bijection invariant between valid frames and
page-index entries holds after construction and is preserved by readPage
(on every path), unPinPage (on every path), disposePage (on every path),
flushFile (on every path, error paths included), and by allocPage whenever
it returns OK or BUFFEREXCEEDED.  It is NOT preserved by the replacement
step in isolation (see the counterexample: a successful allocBuf that
evicts a valid victim leaves the frame valid but unmapped), nor therefore
by allocPage's post-eviction error paths (write-back failure, index-insert
failure), which stop after that half-finished eviction. -/
theorem C9_bijection_amended :
    (∀ n, Inv (initBufMgr n)) ∧
    (∀ env st file pageNo, Inv st →
      ∀ r : Status × BufMgr × List IOEvent × Option Nat,
        readPage env st file pageNo = some r → Inv r.2.1) ∧
    (∀ st file pageNo dirty, Inv st → Inv (unPinPage st file pageNo dirty).2.1) ∧
    (∀ env st file pageNo, Inv st → Wf st → Inv (disposePage env st file pageNo).2.1) ∧
    (∀ env st file, Inv st → Wf st → Inv (flushFile env st file).2.1) ∧
    (∀ env st file, Inv st → Wf st →
      ∀ r : Status × BufMgr × List IOEvent × Option Int × Option Nat,
        allocPage env st file = some r →
        (r.1 = Status.OK ∨ r.1 = Status.BUFFEREXCEEDED) → Inv r.2.1) :=
  ⟨Inv_initBufMgr,
   fun env st file pageNo hinv r h => Inv_readPage env st file pageNo hinv r h,
   fun st file pageNo dirty hinv => Inv_unPinPage st file pageNo dirty hinv,
   fun env st file pageNo hinv hwf => Inv_disposePage env st file pageNo hinv hwf.1,
   fun env st file hinv hwf => Inv_flushFile env st file hinv hwf.1,
   fun env st file hinv hwf r h hrc => Inv_allocPage env st file hinv hwf r h hrc⟩

/-- Witness for C9_bijection_amended at concrete states: the invariant
holds for the fresh two-frame pool, is preserved by a concrete successful
unpin on stHit, by a concrete disposePage on stDirty, and by a concrete
allocPage on the fresh pool. -/
theorem C9_bijection_witness :
    Inv (initBufMgr 2) ∧
    Inv (unPinPage stHit 1 5 true).2.1 ∧
    Inv (disposePage exEnv stDirty 1 1).2.1 ∧
    Inv (flushFile exEnv stDirty 1).2.1 :=
  ⟨C9_bijection_amended.1 2,
   C9_bijection_amended.2.2.1 stHit 1 5 true (by decide),
   C9_bijection_amended.2.2.2.1 exEnv stDirty 1 1 (by decide) (by decide),
   C9_bijection_amended.2.2.2.2.1 exEnv stDirty 1 (by decide) (by decide)⟩

end BufSpec
